import Mathlib

/-!
Verification of the metadata-edit (VersionEdit) and write-batch layers of a
leveldb fork with guard/fence support.

The embedding follows src/db/version_edit.{h,cc} and src/db/write_batch.cc.
Byte buffers are lists of naturals (each produced byte is < 256); machine
integers are naturals reduced modulo 2^32 / 2^64 where the code truncates.

The coding helpers (PutVarint32/64, PutLengthPrefixedSlice, EncodeFixed32/64
and their readers) live in util/coding.h, which is not part of the sources
under verification; they are modelled from the spec: unsigned base-128
varints, length-prefixed byte strings (varint length then raw bytes) and
little-endian fixed-width integers.
-/

namespace Leveldb

/-- Modelled from the spec: unsigned varint encoding (base-128, little-endian
groups, high bit marks continuation), as produced by PutVarint32/PutVarint64
of util/coding.h which is outside the verified sources. -/
def putVarint (v : Nat) : List Nat :=
  if v < 128 then [v] else (v % 128 + 128) :: putVarint (v / 128)
termination_by v
decreasing_by exact Nat.div_lt_self (by omega) (by omega)

/-- PutVarint32 truncates its argument to 32 bits. -/
def putVarint32 (v : Nat) : List Nat := putVarint (v % 4294967296)

/-- PutVarint64 truncates its argument to 64 bits. -/
def putVarint64 (v : Nat) : List Nat := putVarint (v % 18446744073709551616)

/-- Modelled from the spec: varint reader (GetVarint32/GetVarint64 of
util/coding.h). Returns the decoded value and the remaining input, or fails
on truncated input. -/
def getVarint : List Nat → Option (Nat × List Nat)
  | [] => none
  | b :: rest =>
    if b < 128 then some (b, rest)
    else
      match getVarint rest with
      | some (v, r) => some (b - 128 + 128 * v, r)
      | none => none

/-- Modelled from the spec: PutLengthPrefixedSlice — varint32 of the length
followed by the raw bytes. -/
def lengthPrefixed (s : List Nat) : List Nat := putVarint32 s.length ++ s

/-- Modelled from the spec: GetLengthPrefixedSlice — read a varint length n,
then take n bytes; fails if fewer than n bytes remain. -/
def getLengthPrefixed (l : List Nat) : Option (List Nat × List Nat) :=
  match getVarint l with
  | some (n, r) => if n ≤ r.length then some (r.take n, r.drop n) else none
  | none => none

/-- Modelled from the spec: EncodeFixed32, little-endian. -/
def fixed32 (v : Nat) : List Nat :=
  [v % 256, v / 256 % 256, v / 65536 % 256, v / 16777216 % 256]

/-- Modelled from the spec: DecodeFixed32 reads the first four bytes. -/
def decodeFixed32 (l : List Nat) : Nat :=
  l.getD 0 0 + 256 * l.getD 1 0 + 65536 * l.getD 2 0 + 16777216 * l.getD 3 0

/-- Modelled from the spec: EncodeFixed64, little-endian. -/
def fixed64 (v : Nat) : List Nat :=
  [v % 256, v / 256 % 256, v / 65536 % 256, v / 16777216 % 256,
   v / 4294967296 % 256, v / 1099511627776 % 256,
   v / 281474976710656 % 256, v / 72057594037927936 % 256]

/-- Modelled from the spec: DecodeFixed64 reads the first eight bytes. -/
def decodeFixed64 (l : List Nat) : Nat :=
  l.getD 0 0 + 256 * l.getD 1 0 + 65536 * l.getD 2 0 + 16777216 * l.getD 3 0 +
  4294967296 * l.getD 4 0 + 1099511627776 * l.getD 5 0 +
  281474976710656 * l.getD 6 0 + 72057594037927936 * l.getD 7 0

theorem getVarint_putVarint (v : Nat) (rest : List Nat) :
    getVarint (putVarint v ++ rest) = some (v, rest) := by
  rw [putVarint]
  split
  · simp [getVarint, *]
  · have ih := getVarint_putVarint (v / 128) rest
    simp only [List.cons_append, getVarint, List.append_eq]
    rw [if_neg (by omega), ih]
    have : v % 128 + 128 - 128 + 128 * (v / 128) = v := by omega
    simp only []
    rw [show v % 128 + 128 - 128 + 128 * (v / 128) = v from by omega]
termination_by v
decreasing_by exact Nat.div_lt_self (by omega) (by omega)

theorem getVarint_length {l r : List Nat} {v : Nat}
    (h : getVarint l = some (v, r)) : r.length < l.length := by
  induction l generalizing v r with
  | nil => simp [getVarint] at h
  | cons b rest ih =>
    simp only [getVarint] at h
    split at h
    · cases h; simp
    · cases hr : getVarint rest with
      | none => rw [hr] at h; cases h
      | some p =>
        rw [hr] at h
        obtain ⟨v0, r0⟩ := p
        cases h
        have := ih hr
        simp
        omega

theorem getLengthPrefixed_length {l r s : List Nat}
    (h : getLengthPrefixed l = some (s, r)) : r.length < l.length := by
  unfold getLengthPrefixed at h
  cases hv : getVarint l with
  | none => simp [hv] at h
  | some p =>
    obtain ⟨n, r0⟩ := p
    simp only [hv] at h
    by_cases hn : n ≤ r0.length
    · simp only [if_pos hn] at h
      have hlen := getVarint_length hv
      have hr : r = r0.drop n := by
        cases h
        rfl
      have : (r0.drop n).length ≤ r0.length := by simp
      rw [hr]
      omega
    · simp [if_neg hn] at h

theorem getLengthPrefixed_lengthPrefixed (s rest : List Nat)
    (h : s.length < 4294967296) :
    getLengthPrefixed (lengthPrefixed s ++ rest) = some (s, rest) := by
  unfold getLengthPrefixed lengthPrefixed putVarint32
  rw [List.append_assoc, Nat.mod_eq_of_lt h, getVarint_putVarint]
  simp [List.take_left, List.drop_left]

theorem decodeFixed32_append (v : Nat) (rest : List Nat) :
    decodeFixed32 (fixed32 v ++ rest) = v % 4294967296 := by
  simp [fixed32, decodeFixed32, List.getD]
  omega

theorem decodeFixed64_append (v : Nat) (rest : List Nat) :
    decodeFixed64 (fixed64 v ++ rest) = v % 18446744073709551616 := by
  simp [fixed64, decodeFixed64, List.getD]
  omega

theorem prefix_split {q a b : List Nat} (h : q <+: a ++ b) :
    q <+: a ∨ ∃ t, q = a ++ t ∧ t <+: b := by
  induction a generalizing q with
  | nil => exact Or.inr ⟨q, by simpa using h⟩
  | cons x a ih =>
    cases q with
    | nil => exact Or.inl List.nil_prefix
    | cons y q =>
      rw [List.cons_append, List.cons_prefix_cons] at h
      obtain ⟨rfl, h⟩ := h
      rcases ih h with h1 | ⟨t, rfl, ht⟩
      · exact Or.inl (List.cons_prefix_cons.mpr ⟨rfl, h1⟩)
      · exact Or.inr ⟨t, rfl, ht⟩

theorem getVarint_truncated {q : List Nat} (v : Nat) (hp : q <+: putVarint v)
    (hl : q.length < (putVarint v).length) : getVarint q = none := by
  rw [putVarint] at hp hl
  by_cases h128 : v < 128
  · rw [if_pos h128] at hp hl
    have hq : q = [] := by
      have h1 : q.length < 1 := hl
      exact List.length_eq_zero.mp (by omega)
    simp [hq, getVarint]
  · rw [if_neg h128] at hp hl
    cases q with
    | nil => rfl
    | cons y q =>
      rw [List.cons_prefix_cons] at hp
      obtain ⟨rfl, hp⟩ := hp
      have ih := getVarint_truncated (v / 128) hp (by simpa using hl)
      simp only [getVarint]
      rw [if_neg (by omega), ih]
termination_by v
decreasing_by exact Nat.div_lt_self (by omega) (by omega)

theorem getLengthPrefixed_truncated {q s : List Nat} (hs : s.length < 4294967296)
    (hp : q <+: lengthPrefixed s) (hl : q.length < (lengthPrefixed s).length) :
    getLengthPrefixed q = none := by
  unfold lengthPrefixed putVarint32 at hp hl
  rw [Nat.mod_eq_of_lt hs] at hp hl
  rcases prefix_split hp with h1 | ⟨t, rfl, ht⟩
  · by_cases he : q.length = (putVarint s.length).length
    · have hq : q = putVarint s.length := by
        rw [List.prefix_iff_eq_take] at h1
        rw [h1, he, List.take_length]
      have hpos : 0 < s.length := by
        simp at hl
        omega
      have hget : getVarint (putVarint s.length) = some (s.length, []) := by
        have h0 := getVarint_putVarint s.length []
        simpa using h0
      have hcond : ¬ (s.length ≤ ([] : List Nat).length) := by
        intro hle
        rw [List.length_nil, Nat.le_zero] at hle
        omega
      simp only [getLengthPrefixed, hq, hget]
      rw [if_neg hcond]
    · have hnone : getVarint q = none := by
        apply getVarint_truncated s.length h1
        have := h1.length_le
        omega
      simp [getLengthPrefixed, hnone]
  · have hlt : t.length < s.length := by
      simpa using hl
    simp only [getLengthPrefixed, getVarint_putVarint]
    rw [if_neg (by omega)]

/-- Once a varint token is fully present, reading it succeeds and hands over
the exact remainder; on a strictly shorter cut it fails. -/
theorem varint_chain {q B : List Nat} (v : Nat) (hp : q <+: putVarint v ++ B)
    (hl : q.length < (putVarint v ++ B).length) :
    getVarint q = none ∨
      ∃ t, q = putVarint v ++ t ∧ t <+: B ∧ t.length < B.length ∧
        getVarint q = some (v, t) := by
  rcases prefix_split hp with h1 | ⟨t, rfl, ht⟩
  · by_cases he : q.length = (putVarint v).length
    · have hq : q = putVarint v := by
        rw [List.prefix_iff_eq_take] at h1
        rw [h1, he, List.take_length]
      have hB : 0 < B.length := by
        simp at hl
        omega
      refine Or.inr ⟨[], by simp [hq], List.nil_prefix, by simpa using hB, ?_⟩
      rw [hq, show putVarint v = putVarint v ++ [] from by simp,
        getVarint_putVarint]
    · exact Or.inl (getVarint_truncated v h1 (by have := h1.length_le; omega))
  · refine Or.inr ⟨t, rfl, ht, ?_, getVarint_putVarint v t⟩
    simpa using hl

/-- Same splitting fact for a length-prefixed string token. -/
theorem lp_chain {q B s : List Nat} (hs : s.length < 4294967296)
    (hp : q <+: lengthPrefixed s ++ B)
    (hl : q.length < (lengthPrefixed s ++ B).length) :
    getLengthPrefixed q = none ∨
      ∃ t, q = lengthPrefixed s ++ t ∧ t <+: B ∧ t.length < B.length ∧
        getLengthPrefixed q = some (s, t) := by
  rcases prefix_split hp with h1 | ⟨t, rfl, ht⟩
  · by_cases he : q.length = (lengthPrefixed s).length
    · have hq : q = lengthPrefixed s := by
        rw [List.prefix_iff_eq_take] at h1
        rw [h1, he, List.take_length]
      have hB : 0 < B.length := by
        simp at hl
        omega
      refine Or.inr ⟨[], by simp [hq], List.nil_prefix, by simpa using hB, ?_⟩
      rw [hq, show lengthPrefixed s = lengthPrefixed s ++ [] from by simp,
        getLengthPrefixed_lengthPrefixed s [] hs]
    · exact Or.inl (getLengthPrefixed_truncated hs h1 (by have := h1.length_le; omega))
  · refine Or.inr ⟨t, rfl, ht, ?_, getLengthPrefixed_lengthPrefixed s t hs⟩
    simpa using hl

theorem fixed32_mod (v : Nat) : fixed32 (v % 4294967296) = fixed32 v := by
  simp only [fixed32]
  congr 1
  · omega
  congr 1
  · omega
  congr 1
  · omega
  congr 1
  omega

/-!
WriteBatch (src/db/write_batch.cc).  rep_ is `[sequence:8][count:4][record]*`.
-/

/-- Modelled from the spec: the record tag constants come from dbformat.h,
which is not under the verified sources; the spec fixes them as stable
distinct on-disk constants (Value, Deletion, Fence). -/
def kTypeDeletion : Nat := 0

def kTypeValue : Nat := 1

def kTypeFence : Nat := 2

/-- WriteBatch header: 8-byte sequence number, then 4-byte count. -/
def kHeader : Nat := 12

structure WriteBatch where
  rep : List Nat
deriving DecidableEq

namespace WriteBatch

/-- WriteBatch::Clear — clear and resize to a zeroed header. -/
def clearBatch : WriteBatch := ⟨List.replicate kHeader 0⟩

/-- WriteBatch::ApproximateSize — the buffer length. -/
def approximateSize (b : WriteBatch) : Nat := b.rep.length

/-- WriteBatchInternal::Count — fixed32 at byte offset 8. -/
def count (b : WriteBatch) : Nat := decodeFixed32 (b.rep.drop 8)

/-- WriteBatchInternal::SetCount — patch bytes 8..11 in place. -/
def setCount (b : WriteBatch) (n : Nat) : WriteBatch :=
  ⟨b.rep.take 8 ++ fixed32 n ++ b.rep.drop 12⟩

/-- WriteBatchInternal::Sequence — fixed64 at byte offset 0. -/
def sequence (b : WriteBatch) : Nat := decodeFixed64 b.rep

/-- WriteBatchInternal::SetSequence — patch bytes 0..7 in place. -/
def setSequence (b : WriteBatch) (s : Nat) : WriteBatch :=
  ⟨fixed64 s ++ b.rep.drop 8⟩

/-- WriteBatch::Put — bump the count, append tag and two varstrings. -/
def put (b : WriteBatch) (key value : List Nat) : WriteBatch :=
  let b2 := b.setCount (b.count + 1)
  ⟨b2.rep ++ kTypeValue :: (lengthPrefixed key ++ lengthPrefixed value)⟩

/-- WriteBatch::PutFence — bump the count, append tag, varstring, varint32. -/
def putFence (b : WriteBatch) (key : List Nat) (level : Nat) : WriteBatch :=
  let b2 := b.setCount (b.count + 1)
  ⟨b2.rep ++ kTypeFence :: (lengthPrefixed key ++ putVarint32 level)⟩

/-- WriteBatch::Delete — bump the count, append tag and one varstring. -/
def del (b : WriteBatch) (key : List Nat) : WriteBatch :=
  let b2 := b.setCount (b.count + 1)
  ⟨b2.rep ++ kTypeDeletion :: lengthPrefixed key⟩

/-- WriteBatchInternal::Append — sum the counts, concatenate the source
records (the source header is skipped). -/
def appendBatch (dst src : WriteBatch) : WriteBatch :=
  let d := dst.setCount (dst.count + src.count)
  ⟨d.rep ++ src.rep.drop kHeader⟩

end WriteBatch

/-- The WriteBatch::Handler capability interface, state-passing. -/
structure Handler (σ : Type) where
  put : σ → List Nat → List Nat → σ
  del : σ → List Nat → σ
  handleFence : σ → List Nat → Nat → σ

/-- One dispatched record of a batch body. -/
inductive BatchRec where
  | value (key value : List Nat)
  | deletion (key : List Nat)
  | fence (key : List Nat) (level : Nat)
deriving DecidableEq

/-- One arm of the tag switch inside WriteBatch::Iterate: parse a single
record after its tag byte, or fail with the corruption message the switch
produces. -/
def parseRec (tag : Nat) (input : List Nat) : Except String (BatchRec × List Nat) :=
  if tag = kTypeValue then
    match getLengthPrefixed input with
    | some (key, r1) =>
      match getLengthPrefixed r1 with
      | some (value, r2) => .ok (.value key value, r2)
      | none => .error "bad WriteBatch Put"
    | none => .error "bad WriteBatch Put"
  else if tag = kTypeDeletion then
    match getLengthPrefixed input with
    | some (key, r1) => .ok (.deletion key, r1)
    | none => .error "bad WriteBatch Delete"
  else if tag = kTypeFence then
    match getLengthPrefixed input with
    | some (key, r1) =>
      match getVarint r1 with
      | some (level, r2) => .ok (.fence key level, r2)
      | none => .error "unknown WriteBatch tag"
    | none => .error "unknown WriteBatch tag"
  else .error "unknown WriteBatch tag"

theorem parseRec_length {tag : Nat} {input rest : List Nat} {r : BatchRec}
    (h : parseRec tag input = .ok (r, rest)) : rest.length < input.length := by
  unfold parseRec at h
  split at h
  · cases h1 : getLengthPrefixed input with
    | none => simp only [h1] at h; cases h
    | some p1 =>
      obtain ⟨key, r1⟩ := p1
      simp only [h1] at h
      cases h2 : getLengthPrefixed r1 with
      | none => simp only [h2] at h; cases h
      | some p2 =>
        obtain ⟨value, r2⟩ := p2
        simp only [h2] at h
        cases h
        have := getLengthPrefixed_length h1
        have := getLengthPrefixed_length h2
        omega
  split at h
  · cases h1 : getLengthPrefixed input with
    | none => simp only [h1] at h; cases h
    | some p1 =>
      obtain ⟨key, r1⟩ := p1
      simp only [h1] at h
      cases h
      exact getLengthPrefixed_length h1
  split at h
  · cases h1 : getLengthPrefixed input with
    | none => simp only [h1] at h; cases h
    | some p1 =>
      obtain ⟨key, r1⟩ := p1
      simp only [h1] at h
      cases h2 : getVarint r1 with
      | none => simp only [h2] at h; cases h
      | some p2 =>
        obtain ⟨level, r2⟩ := p2
        simp only [h2] at h
        cases h
        have := getLengthPrefixed_length h1
        have := getVarint_length h2
        omega
  cases h

/-- Dispatch one parsed record to the handler. -/
def dispatchRec {σ : Type} (h : Handler σ) (s : σ) : BatchRec → σ
  | .value k v => h.put s k v
  | .deletion k => h.del s k
  | .fence k l => h.handleFence s k l

/-- The record loop of WriteBatch::Iterate: dispatch records in storage
order, counting them in found. -/
def iterateLoop {σ : Type} (h : Handler σ) (input : List Nat) (s : σ)
    (found : Nat) : σ × Nat × Option String :=
  match input with
  | [] => (s, found, none)
  | tag :: rest =>
    match hp : parseRec tag rest with
    | .ok (r, rest2) => iterateLoop h rest2 (dispatchRec h s r) (found + 1)
    | .error msg => (s, found + 1, some msg)
termination_by input.length
decreasing_by
  have := parseRec_length hp
  simp only [List.length_cons]
  omega

namespace WriteBatch

/-- WriteBatch::Iterate — header check, record loop, count cross-check. -/
def iterate {σ : Type} (b : WriteBatch) (h : Handler σ) (s : σ) :
    σ × Option String :=
  if b.rep.length < kHeader then (s, some "malformed WriteBatch (too small)")
  else
    match iterateLoop h (b.rep.drop kHeader) s 0 with
    | (s2, _, some msg) => (s2, some msg)
    | (s2, found, none) =>
      if found ≠ b.count then (s2, some "WriteBatch has wrong count")
      else (s2, none)

end WriteBatch

/-- A builder call on a WriteBatch: Put, Delete or PutFence. -/
inductive BatchOp where
  | putOp (key value : List Nat)
  | delOp (key : List Nat)
  | fenceOp (key : List Nat) (level : Nat)
deriving DecidableEq

/-- Apply one builder call. -/
def applyOp (b : WriteBatch) : BatchOp → WriteBatch
  | .putOp k v => b.put k v
  | .delOp k => b.del k
  | .fenceOp k l => b.putFence k l

/-- Apply a sequence of builder calls in order. -/
def applyOps (b : WriteBatch) (ops : List BatchOp) : WriteBatch :=
  ops.foldl applyOp b

/-- The bytes a builder call appends after the header. -/
def encOp : BatchOp → List Nat
  | .putOp k v => kTypeValue :: (lengthPrefixed k ++ lengthPrefixed v)
  | .delOp k => kTypeDeletion :: lengthPrefixed k
  | .fenceOp k l => kTypeFence :: (lengthPrefixed k ++ putVarint32 l)

/-- The record Iterate dispatches for a builder call. -/
def opRec : BatchOp → BatchRec
  | .putOp k v => .value k v
  | .delOp k => .deletion k
  | .fenceOp k l => .fence k l

/-- Arguments fit the varint32-framed wire format. -/
def wfOp : BatchOp → Prop
  | .putOp k v => k.length < 4294967296 ∧ v.length < 4294967296
  | .delOp k => k.length < 4294967296
  | .fenceOp k l => k.length < 4294967296 ∧ l < 4294967296

/-- A batch in normal form: an 8-byte sequence, a 4-byte count, a body. -/
def nfBatch (seq cnt : Nat) (body : List Nat) : WriteBatch :=
  ⟨fixed64 seq ++ (fixed32 cnt ++ body)⟩

theorem clearBatch_eq_nf : WriteBatch.clearBatch = nfBatch 0 0 [] := by
  decide

theorem nfBatch_count (seq cnt : Nat) (body : List Nat) :
    (nfBatch seq cnt body).count = cnt % 4294967296 := by
  have : (nfBatch seq cnt body).rep.drop 8 = fixed32 cnt ++ body := by
    simp [nfBatch, fixed64]
  rw [WriteBatch.count, this, decodeFixed32_append]

theorem nfBatch_sequence (seq cnt : Nat) (body : List Nat) :
    (nfBatch seq cnt body).sequence = seq % 18446744073709551616 := by
  rw [WriteBatch.sequence]
  exact decodeFixed64_append seq (fixed32 cnt ++ body)

theorem nfBatch_take8 (seq cnt : Nat) (body : List Nat) :
    (nfBatch seq cnt body).rep.take 8 = fixed64 seq := by
  have h8 : (fixed64 seq).length = 8 := by simp [fixed64]
  rw [nfBatch, show (8 : Nat) = (fixed64 seq).length from h8.symm]
  exact List.take_left _ _

theorem nfBatch_drop12 (seq cnt : Nat) (body : List Nat) :
    (nfBatch seq cnt body).rep.drop 12 = body := by
  simp [nfBatch, fixed64, fixed32]

theorem nfBatch_setCount (seq cnt n : Nat) (body : List Nat) :
    (nfBatch seq cnt body).setCount n = nfBatch seq n body := by
  rw [WriteBatch.setCount, nfBatch_take8, nfBatch_drop12]
  rw [nfBatch]
  simp

theorem nfBatch_setSequence (seq cnt n : Nat) (body : List Nat) :
    (nfBatch seq cnt body).setSequence n = nfBatch n cnt body := by
  rw [WriteBatch.setSequence, nfBatch, nfBatch]
  congr 1

theorem fixed32_mod_succ (cnt : Nat) :
    fixed32 (cnt % 4294967296 + 1) = fixed32 (cnt + 1) := by
  rw [← fixed32_mod (cnt % 4294967296 + 1), ← fixed32_mod (cnt + 1)]
  congr 1
  omega

theorem applyOp_nf (seq cnt : Nat) (body : List Nat) (op : BatchOp) :
    applyOp (nfBatch seq cnt body) op = nfBatch seq (cnt + 1) (body ++ encOp op) := by
  have hcount : (nfBatch seq cnt body).count + 1 = cnt % 4294967296 + 1 := by
    rw [nfBatch_count]
  cases op with
  | putOp k v =>
    rw [applyOp, WriteBatch.put]
    rw [hcount, nfBatch_setCount]
    simp only [nfBatch, encOp, fixed32_mod_succ, WriteBatch.mk.injEq]
    simp [List.append_assoc]
  | delOp k =>
    rw [applyOp, WriteBatch.del]
    rw [hcount, nfBatch_setCount]
    simp only [nfBatch, encOp, fixed32_mod_succ, WriteBatch.mk.injEq]
    simp [List.append_assoc]
  | fenceOp k l =>
    rw [applyOp, WriteBatch.putFence]
    rw [hcount, nfBatch_setCount]
    simp only [nfBatch, encOp, fixed32_mod_succ, WriteBatch.mk.injEq]
    simp [List.append_assoc]

theorem applyOps_nf (ops : List BatchOp) (seq cnt : Nat) (body : List Nat) :
    applyOps (nfBatch seq cnt body) ops =
      nfBatch seq (cnt + ops.length) (body ++ (ops.map encOp).flatten) := by
  induction ops generalizing cnt body with
  | nil => simp [applyOps]
  | cons op ops ih =>
    rw [applyOps, List.foldl_cons, applyOp_nf]
    rw [show List.foldl applyOp (nfBatch seq (cnt + 1) (body ++ encOp op)) ops =
      applyOps (nfBatch seq (cnt + 1) (body ++ encOp op)) ops from rfl, ih]
    have harith : cnt + 1 + ops.length = cnt + (ops.length + 1) := by omega
    simp [List.append_assoc, harith]

theorem parseRec_put (k v rest : List Nat) (hk : k.length < 4294967296)
    (hv : v.length < 4294967296) :
    parseRec kTypeValue ((lengthPrefixed k ++ lengthPrefixed v) ++ rest) =
      .ok (.value k v, rest) := by
  have h1 := getLengthPrefixed_lengthPrefixed k (lengthPrefixed v ++ rest) hk
  have h2 := getLengthPrefixed_lengthPrefixed v rest hv
  simp [parseRec, List.append_assoc, h1, h2]

theorem parseRec_del (k rest : List Nat) (hk : k.length < 4294967296) :
    parseRec kTypeDeletion (lengthPrefixed k ++ rest) = .ok (.deletion k, rest) := by
  have h1 := getLengthPrefixed_lengthPrefixed k rest hk
  simp [parseRec, kTypeDeletion, kTypeValue, h1]

theorem parseRec_fence (k rest : List Nat) (l : Nat) (hk : k.length < 4294967296)
    (hl : l < 4294967296) :
    parseRec kTypeFence ((lengthPrefixed k ++ putVarint32 l) ++ rest) =
      .ok (.fence k l, rest) := by
  have h1 := getLengthPrefixed_lengthPrefixed k (putVarint32 l ++ rest) hk
  have h2 : getVarint (putVarint32 l ++ rest) = some (l, rest) := by
    rw [putVarint32, Nat.mod_eq_of_lt hl, getVarint_putVarint]
  simp [parseRec, kTypeFence, kTypeValue, kTypeDeletion, List.append_assoc, h1, h2]

/-- The record fold a handler performs over a list of builder calls. -/
def foldOps {σ : Type} (h : Handler σ) (s : σ) (ops : List BatchOp) : σ :=
  ops.foldl (fun t op => dispatchRec h t (opRec op)) s

theorem iterateLoop_enc {σ : Type} (h : Handler σ) (ops : List BatchOp)
    (hwf : ∀ op ∈ ops, wfOp op) (s : σ) (found : Nat) :
    iterateLoop h (ops.map encOp).flatten s found =
      (foldOps h s ops, found + ops.length, none) := by
  induction ops generalizing s found with
  | nil => simp [iterateLoop, foldOps]
  | cons op ops ih =>
    have hwfh : wfOp op := hwf op (List.mem_cons_self op ops)
    have hwft : ∀ o ∈ ops, wfOp o := fun o ho => hwf o (List.mem_cons_of_mem op ho)
    have hfold : foldOps h s (op :: ops) = foldOps h (dispatchRec h s (opRec op)) ops := rfl
    rw [hfold]
    cases op with
    | putOp k v =>
      obtain ⟨hk, hv⟩ := hwfh
      have henc : ((BatchOp.putOp k v :: ops).map encOp).flatten =
          kTypeValue :: ((lengthPrefixed k ++ lengthPrefixed v) ++ (ops.map encOp).flatten) := by
        simp [encOp]
      rw [henc, iterateLoop, parseRec_put k v _ hk hv]
      simp [ih hwft, opRec]
      try omega
    | delOp k =>
      have henc : ((BatchOp.delOp k :: ops).map encOp).flatten =
          kTypeDeletion :: (lengthPrefixed k ++ (ops.map encOp).flatten) := by
        simp [encOp]
      rw [henc, iterateLoop, parseRec_del k _ hwfh]
      simp [ih hwft, opRec]
      try omega
    | fenceOp k l =>
      obtain ⟨hk, hl⟩ := hwfh
      have henc : ((BatchOp.fenceOp k l :: ops).map encOp).flatten =
          kTypeFence :: ((lengthPrefixed k ++ putVarint32 l) ++ (ops.map encOp).flatten) := by
        simp [encOp]
      rw [henc, iterateLoop, parseRec_fence k _ l hk hl]
      simp [ih hwft, opRec]
      try omega

theorem iterate_nf {σ : Type} (h : Handler σ) (s : σ) (seq : Nat)
    (ops : List BatchOp) (hwf : ∀ op ∈ ops, wfOp op)
    (hn : ops.length < 4294967296) :
    (applyOps (nfBatch seq 0 []) ops).iterate h s = (foldOps h s ops, none) := by
  rw [applyOps_nf, WriteBatch.iterate]
  have hlen : ¬ ((nfBatch seq (0 + ops.length) ([] ++ (ops.map encOp).flatten)).rep.length < kHeader) := by
    simp [nfBatch, fixed64, fixed32, kHeader]
  rw [if_neg hlen]
  have hdrop : (nfBatch seq (0 + ops.length) ([] ++ (ops.map encOp).flatten)).rep.drop kHeader =
      (ops.map encOp).flatten := by
    rw [show kHeader = 12 from rfl, nfBatch_drop12]
    simp
  rw [hdrop, iterateLoop_enc h ops hwf s 0]
  have hcnt : (nfBatch seq (0 + ops.length) ([] ++ (ops.map encOp).flatten)).count =
      ops.length := by
    rw [nfBatch_count]
    omega
  simp [hcnt]
  rw [nfBatch_count]
  omega

/-!
The two concrete handlers of src/db/write_batch.cc: MemTableInserter and
FenceInserter, plus their entry points InsertInto and SetFences.
-/

/-- One MemTable::Add call (the memtable is a collaborator; modelled from the
spec as the sequence of Add calls). -/
structure MemEntry where
  seq : Nat
  kind : Nat
  key : List Nat
  value : List Nat
deriving DecidableEq

/-- MemTableInserter state: the running sequence number and the memtable. -/
structure InserterState where
  sequence : Nat
  mem : List MemEntry
deriving DecidableEq

/-- MemTableInserter: Put and Delete insert into the memtable and advance the
sequence; HandleFence builds a local FenceMetaData (never registered) and
advances the sequence. -/
def memTableInserter : Handler InserterState where
  put s k v := ⟨s.sequence + 1, s.mem ++ [⟨s.sequence, kTypeValue, k, v⟩]⟩
  del s k := ⟨s.sequence + 1, s.mem ++ [⟨s.sequence, kTypeDeletion, k, []⟩]⟩
  handleFence s _ _ := ⟨s.sequence + 1, s.mem⟩

/-- WriteBatchInternal::InsertInto — replay the batch into a memtable
starting at the batch's header sequence number. -/
def insertInto (b : WriteBatch) (mem : List MemEntry) :
    InserterState × Option String :=
  b.iterate memTableInserter ⟨b.sequence, mem⟩

/-- Modelled from the spec: config::kNumLevels, the fixed level count of the
upstream configuration (dbformat.h is not under the verified sources). -/
def kNumLevels : Nat := 7

/-- FenceInserter: number of hash bits a key must have set to become a
top-level guard. -/
def top_level_bits : Nat := 27

/-- FenceInserter: the per-level decrement of the bit threshold. -/
def bit_decrement : Nat := 2

/-- The level scan of FenceInserter::Put: starting at level 0 with
top_level_bits and decreasing by bit_decrement per level, the first level
whose low-bit mask is entirely set in the hash value (the loop's bit count
at level i is top_level_bits - bit_decrement * i). -/
def selectFenceLevel (hash : Nat) : Option Nat :=
  (List.range kNumLevels).find? fun i =>
    hash &&& (2 ^ (top_level_bits - bit_decrement * i) - 1) =
      2 ^ (top_level_bits - bit_decrement * i) - 1

/-- FenceInserter state: the destination batch, the bookkeeping sequence
number, the per-level diagnostic guard counters, and a flag recording that
HandleFence (assert(0), a fatal invariant violation) was never reached. -/
structure FenceInserterState where
  newBatch : WriteBatch
  sequence : Nat
  numGuards : Nat → Nat
  ok : Bool

/-- FenceInserter, parameterized by the 32-bit key hash (MurmurHash3_x86_32
with seed 42 lives in db/murmurhash3.h, outside the verified sources;
modelled from the spec as a function of the raw key bytes). On a Put whose
hash passes the level-i test, PutFence records are appended for level i and
every deeper level; Delete only advances the sequence; HandleFence is the
fatal assert(0). -/
def fenceInserter (hash : List Nat → Nat) : Handler FenceInserterState where
  put s k _ :=
    match selectFenceLevel (hash k) with
    | some i =>
      { s with
        newBatch := (List.range' i (kNumLevels - i)).foldl
          (fun b j => b.putFence k j) s.newBatch,
        numGuards := fun j =>
          if i ≤ j ∧ j < kNumLevels then s.numGuards j + 1 else s.numGuards j,
        sequence := s.sequence + 1 }
    | none => { s with sequence := s.sequence + 1 }
  del s _ := { s with sequence := s.sequence + 1 }
  handleFence s _ _ := { s with ok := false }

/-- WriteBatchInternal::SetFences — run the FenceInserter over the batch,
accumulating fence records into new_batch. -/
def setFences (hash : List Nat → Nat) (batch new_batch : WriteBatch) :
    FenceInserterState × Option String :=
  batch.iterate (fenceInserter hash) ⟨new_batch, batch.sequence, fun _ => 0, true⟩

instance wfOp_decidable : DecidablePred wfOp := fun op =>
  match op with
  | .putOp k v =>
    inferInstanceAs (Decidable (k.length < 4294967296 ∧ v.length < 4294967296))
  | .delOp k => inferInstanceAs (Decidable (k.length < 4294967296))
  | .fenceOp k l =>
    inferInstanceAs (Decidable (k.length < 4294967296 ∧ l < 4294967296))

theorem appendBatch_nf (sa sb ca cb : Nat) (ba bb : List Nat)
    (hca : ca < 4294967296) (hcb : cb < 4294967296) :
    (nfBatch sa ca ba).appendBatch (nfBatch sb cb bb) =
      nfBatch sa (ca + cb) (ba ++ bb) := by
  rw [WriteBatch.appendBatch]
  have hc : (nfBatch sa ca ba).count + (nfBatch sb cb bb).count = ca + cb := by
    rw [nfBatch_count, nfBatch_count, Nat.mod_eq_of_lt hca, Nat.mod_eq_of_lt hcb]
  rw [hc, nfBatch_setCount]
  have hdrop : (nfBatch sb cb bb).rep.drop kHeader = bb := by
    rw [show kHeader = 12 from rfl, nfBatch_drop12]
  show WriteBatch.mk ((nfBatch sa (ca + cb) ba).rep ++ (nfBatch sb cb bb).rep.drop kHeader) = _
  rw [hdrop, nfBatch, nfBatch]
  simp

/-- C3: for every finite sequence of Put/Delete/PutFence calls on a batch
created empty (arguments fitting the varint32 framing, fewer than 2^32
calls), the 4-byte header count equals the number of calls made, and Iterate
with any handler dispatches exactly one handler call per record, in storage
order, and returns success. -/
theorem c3_batch_count_invariant (ops : List BatchOp)
    (hwf : ∀ op ∈ ops, wfOp op) (hn : ops.length < 4294967296) :
    (applyOps WriteBatch.clearBatch ops).count = ops.length ∧
    ∀ (σ : Type) (h : Handler σ) (s : σ),
      (applyOps WriteBatch.clearBatch ops).iterate h s = (foldOps h s ops, none) := by
  rw [clearBatch_eq_nf]
  constructor
  · rw [applyOps_nf, nfBatch_count]
    simp
    omega
  · intro σ h s
    exact iterate_nf h s 0 ops hwf hn

theorem c3_batch_count_invariant_witness :
    ((∀ op ∈ [BatchOp.putOp [10] [20], BatchOp.delOp [30],
        BatchOp.fenceOp [40] 3], wfOp op) ∧
      [BatchOp.putOp [10] [20], BatchOp.delOp [30],
        BatchOp.fenceOp [40] 3].length < 4294967296) ∧
    ((applyOps WriteBatch.clearBatch [BatchOp.putOp [10] [20], BatchOp.delOp [30],
        BatchOp.fenceOp [40] 3]).count =
      [BatchOp.putOp [10] [20], BatchOp.delOp [30], BatchOp.fenceOp [40] 3].length ∧
     ∀ (σ : Type) (h : Handler σ) (s : σ),
      (applyOps WriteBatch.clearBatch [BatchOp.putOp [10] [20], BatchOp.delOp [30],
        BatchOp.fenceOp [40] 3]).iterate h s =
        (foldOps h s [BatchOp.putOp [10] [20], BatchOp.delOp [30],
          BatchOp.fenceOp [40] 3], none)) :=
  ⟨⟨by decide, by decide⟩,
   c3_batch_count_invariant _ (by decide) (by decide)⟩

/-- C6: appending batch b onto batch a concatenates the record streams (a's
records in order, then b's), sums the header counts, and leaves a's 8-byte
sequence header unchanged. -/
theorem c6_append_additivity (sa sb : Nat) (opsa opsb : List BatchOp)
    (hwfa : ∀ op ∈ opsa, wfOp op) (hwfb : ∀ op ∈ opsb, wfOp op)
    (hn : opsa.length + opsb.length < 4294967296) :
    (∀ (σ : Type) (h : Handler σ) (s : σ),
      ((applyOps (WriteBatch.clearBatch.setSequence sa) opsa).appendBatch
        (applyOps (WriteBatch.clearBatch.setSequence sb) opsb)).iterate h s =
        (foldOps h s (opsa ++ opsb), none)) ∧
    ((applyOps (WriteBatch.clearBatch.setSequence sa) opsa).appendBatch
        (applyOps (WriteBatch.clearBatch.setSequence sb) opsb)).count =
      (applyOps (WriteBatch.clearBatch.setSequence sa) opsa).count +
        (applyOps (WriteBatch.clearBatch.setSequence sb) opsb).count ∧
    ((applyOps (WriteBatch.clearBatch.setSequence sa) opsa).appendBatch
        (applyOps (WriteBatch.clearBatch.setSequence sb) opsb)).sequence =
      (applyOps (WriteBatch.clearBatch.setSequence sa) opsa).sequence := by
  have ha : applyOps (WriteBatch.clearBatch.setSequence sa) opsa =
      nfBatch sa opsa.length ((opsa.map encOp).flatten) := by
    rw [clearBatch_eq_nf, nfBatch_setSequence, applyOps_nf]
    simp
  have hb : applyOps (WriteBatch.clearBatch.setSequence sb) opsb =
      nfBatch sb opsb.length ((opsb.map encOp).flatten) := by
    rw [clearBatch_eq_nf, nfBatch_setSequence, applyOps_nf]
    simp
  have happ : (applyOps (WriteBatch.clearBatch.setSequence sa) opsa).appendBatch
      (applyOps (WriteBatch.clearBatch.setSequence sb) opsb) =
      applyOps (nfBatch sa 0 []) (opsa ++ opsb) := by
    rw [ha, hb, appendBatch_nf sa sb _ _ _ _ (by omega) (by omega), applyOps_nf]
    simp
  refine ⟨?_, ?_, ?_⟩
  · intro σ h s
    rw [happ]
    exact iterate_nf h s sa (opsa ++ opsb) (by
      intro op hop
      rcases List.mem_append.mp hop with h1 | h1
      · exact hwfa op h1
      · exact hwfb op h1) (by simpa using hn)
  · rw [happ, ha, hb, applyOps_nf, nfBatch_count, nfBatch_count, nfBatch_count]
    simp
    omega
  · rw [happ, ha, applyOps_nf, nfBatch_sequence, nfBatch_sequence]

theorem c6_append_additivity_witness :
    ((∀ op ∈ [BatchOp.putOp [1] [2]], wfOp op) ∧
     (∀ op ∈ [BatchOp.delOp [3]], wfOp op) ∧
     [BatchOp.putOp [1] [2]].length + [BatchOp.delOp [3]].length < 4294967296) ∧
    ((∀ (σ : Type) (h : Handler σ) (s : σ),
      ((applyOps (WriteBatch.clearBatch.setSequence 9) [BatchOp.putOp [1] [2]]).appendBatch
        (applyOps (WriteBatch.clearBatch.setSequence 4) [BatchOp.delOp [3]])).iterate h s =
        (foldOps h s ([BatchOp.putOp [1] [2]] ++ [BatchOp.delOp [3]]), none)) ∧
    ((applyOps (WriteBatch.clearBatch.setSequence 9) [BatchOp.putOp [1] [2]]).appendBatch
        (applyOps (WriteBatch.clearBatch.setSequence 4) [BatchOp.delOp [3]])).count =
      (applyOps (WriteBatch.clearBatch.setSequence 9) [BatchOp.putOp [1] [2]]).count +
        (applyOps (WriteBatch.clearBatch.setSequence 4) [BatchOp.delOp [3]]).count ∧
    ((applyOps (WriteBatch.clearBatch.setSequence 9) [BatchOp.putOp [1] [2]]).appendBatch
        (applyOps (WriteBatch.clearBatch.setSequence 4) [BatchOp.delOp [3]])).sequence =
      (applyOps (WriteBatch.clearBatch.setSequence 9) [BatchOp.putOp [1] [2]]).sequence) :=
  ⟨⟨by decide, by decide, by decide⟩,
   c6_append_additivity 9 4 _ _ (by decide) (by decide) (by decide)⟩

/-- C8: a batch with header sequence 5 holding Put(k1,v1), Delete(k2),
Put(k3,v3) has header count 3; replay through the table-insert handler adds
the three entries with sequence numbers 5, 6, 7 in storage order; and
ApproximateSize is 12 plus the sum of the three records' encoded lengths. -/
theorem c8_concrete_replay (k1 v1 k2 k3 v3 : List Nat)
    (h1 : k1.length < 4294967296) (h2 : v1.length < 4294967296)
    (h3 : k2.length < 4294967296) (h4 : k3.length < 4294967296)
    (h5 : v3.length < 4294967296) :
    (applyOps (WriteBatch.clearBatch.setSequence 5)
      [BatchOp.putOp k1 v1, BatchOp.delOp k2, BatchOp.putOp k3 v3]).count = 3 ∧
    insertInto (applyOps (WriteBatch.clearBatch.setSequence 5)
      [BatchOp.putOp k1 v1, BatchOp.delOp k2, BatchOp.putOp k3 v3]) [] =
      (⟨8, [⟨5, kTypeValue, k1, v1⟩, ⟨6, kTypeDeletion, k2, []⟩,
        ⟨7, kTypeValue, k3, v3⟩]⟩, none) ∧
    (applyOps (WriteBatch.clearBatch.setSequence 5)
      [BatchOp.putOp k1 v1, BatchOp.delOp k2, BatchOp.putOp k3 v3]).approximateSize =
      kHeader + ((encOp (BatchOp.putOp k1 v1)).length +
        ((encOp (BatchOp.delOp k2)).length + (encOp (BatchOp.putOp k3 v3)).length)) := by
  have hops : ∀ op ∈ [BatchOp.putOp k1 v1, BatchOp.delOp k2, BatchOp.putOp k3 v3],
      wfOp op := by
    intro op hop
    simp at hop
    rcases hop with rfl | rfl | rfl
    · exact ⟨h1, h2⟩
    · exact h3
    · exact ⟨h4, h5⟩
  have hbatch : applyOps (WriteBatch.clearBatch.setSequence 5)
      [BatchOp.putOp k1 v1, BatchOp.delOp k2, BatchOp.putOp k3 v3] =
      applyOps (nfBatch 5 0 [])
        [BatchOp.putOp k1 v1, BatchOp.delOp k2, BatchOp.putOp k3 v3] := by
    rw [clearBatch_eq_nf, nfBatch_setSequence]
  refine ⟨?_, ?_, ?_⟩
  · rw [hbatch, applyOps_nf, nfBatch_count]
    simp
  · rw [insertInto]
    have hseq : (applyOps (WriteBatch.clearBatch.setSequence 5)
        [BatchOp.putOp k1 v1, BatchOp.delOp k2, BatchOp.putOp k3 v3]).sequence = 5 := by
      rw [hbatch, applyOps_nf, nfBatch_sequence]
    rw [hseq, hbatch, iterate_nf memTableInserter _ 5 _ hops
      (by simp only [List.length_cons, List.length_nil]; omega)]
    rfl
  · rw [hbatch, applyOps_nf, WriteBatch.approximateSize]
    simp [nfBatch, fixed64, fixed32, kHeader]
    omega

theorem c8_concrete_replay_witness :
    (([11]:List Nat).length < 4294967296 ∧ ([12]:List Nat).length < 4294967296 ∧
     ([13]:List Nat).length < 4294967296 ∧ ([14]:List Nat).length < 4294967296 ∧
     ([15]:List Nat).length < 4294967296) ∧
    ((applyOps (WriteBatch.clearBatch.setSequence 5)
      [BatchOp.putOp [11] [12], BatchOp.delOp [13], BatchOp.putOp [14] [15]]).count = 3 ∧
    insertInto (applyOps (WriteBatch.clearBatch.setSequence 5)
      [BatchOp.putOp [11] [12], BatchOp.delOp [13], BatchOp.putOp [14] [15]]) [] =
      (⟨8, [⟨5, kTypeValue, [11], [12]⟩, ⟨6, kTypeDeletion, [13], []⟩,
        ⟨7, kTypeValue, [14], [15]⟩]⟩, none) ∧
    (applyOps (WriteBatch.clearBatch.setSequence 5)
      [BatchOp.putOp [11] [12], BatchOp.delOp [13], BatchOp.putOp [14] [15]]).approximateSize =
      kHeader + ((encOp (BatchOp.putOp [11] [12])).length +
        ((encOp (BatchOp.delOp [13])).length + (encOp (BatchOp.putOp [14] [15])).length))) :=
  ⟨⟨by decide, by decide, by decide, by decide, by decide⟩,
   c8_concrete_replay [11] [12] [13] [14] [15]
     (by decide) (by decide) (by decide) (by decide) (by decide)⟩

/-- The fence records FenceInserter derives from one builder call: a Put is
assigned its guard levels from its hash alone; Deletes and fences contribute
nothing. -/
def guardOps (hash : List Nat → Nat) : BatchOp → List BatchOp
  | .putOp k _ =>
    match selectFenceLevel (hash k) with
    | some L => (List.range' L (kNumLevels - L)).map (fun j => BatchOp.fenceOp k j)
    | none => []
  | _ => []

/-- The guard selector never sees Fence records in its input batch. -/
def noFenceOp : BatchOp → Prop
  | .fenceOp _ _ => False
  | _ => True

instance noFenceOp_decidable : DecidablePred noFenceOp := fun op =>
  match op with
  | .putOp _ _ => inferInstanceAs (Decidable True)
  | .delOp _ => inferInstanceAs (Decidable True)
  | .fenceOp _ _ => inferInstanceAs (Decidable False)

theorem foldl_putFence (k : List Nat) (levels : List Nat) (b : WriteBatch) :
    levels.foldl (fun b2 j => b2.putFence k j) b =
      applyOps b (levels.map (fun j => BatchOp.fenceOp k j)) := by
  induction levels generalizing b with
  | nil => rfl
  | cons l ls ih =>
    rw [List.foldl_cons, List.map_cons, applyOps, List.foldl_cons]
    exact ih _

theorem fenceFold (hash : List Nat → Nat) (ops : List BatchOp)
    (hnf : ∀ op ∈ ops, noFenceOp op) (nb : WriteBatch) (seq0 : Nat)
    (g : Nat → Nat) :
    ∃ g2, foldOps (fenceInserter hash) ⟨nb, seq0, g, true⟩ ops =
      ⟨applyOps nb (ops.flatMap (guardOps hash)), seq0 + ops.length, g2, true⟩ := by
  induction ops generalizing nb seq0 g with
  | nil => exact ⟨g, rfl⟩
  | cons op ops ih =>
    have hnft : ∀ o ∈ ops, noFenceOp o := fun o ho => hnf o (List.mem_cons_of_mem op ho)
    have hstep : foldOps (fenceInserter hash) (⟨nb, seq0, g, true⟩ : FenceInserterState)
        (op :: ops) = foldOps (fenceInserter hash)
          (dispatchRec (fenceInserter hash) ⟨nb, seq0, g, true⟩ (opRec op)) ops := rfl
    cases op with
    | putOp k v =>
      have hput : dispatchRec (fenceInserter hash)
          (⟨nb, seq0, g, true⟩ : FenceInserterState) (opRec (BatchOp.putOp k v)) =
          match selectFenceLevel (hash k) with
          | some i => ⟨(List.range' i (kNumLevels - i)).foldl
              (fun b j => b.putFence k j) nb, seq0 + 1,
              fun j => if i ≤ j ∧ j < kNumLevels then g j + 1 else g j, true⟩
          | none => ⟨nb, seq0 + 1, g, true⟩ := rfl
      rw [hstep, hput]
      cases hsel : selectFenceLevel (hash k) with
      | some L =>
        simp only [hsel]
        obtain ⟨g2, hg2⟩ := ih hnft
          ((List.range' L (kNumLevels - L)).foldl (fun b j => b.putFence k j) nb)
          (seq0 + 1) (fun j => if L ≤ j ∧ j < kNumLevels then g j + 1 else g j)
        refine ⟨g2, ?_⟩
        rw [hg2, foldl_putFence]
        have heq : applyOps (applyOps nb ((List.range' L (kNumLevels - L)).map
            (fun j => BatchOp.fenceOp k j))) (ops.flatMap (guardOps hash)) =
            applyOps nb ((BatchOp.putOp k v :: ops).flatMap (guardOps hash)) := by
          rw [List.flatMap_cons, show guardOps hash (BatchOp.putOp k v) =
            (List.range' L (kNumLevels - L)).map (fun j => BatchOp.fenceOp k j) from
            by rw [guardOps, hsel]]
          rw [applyOps, applyOps, applyOps, List.foldl_append]
        rw [heq]
        have hlen : seq0 + 1 + ops.length =
            seq0 + (BatchOp.putOp k v :: ops).length := by
          simp only [List.length_cons]
          omega
        rw [hlen]
      | none =>
        simp only [hsel]
        obtain ⟨g2, hg2⟩ := ih hnft nb (seq0 + 1) g
        refine ⟨g2, ?_⟩
        rw [hg2]
        have hnil : guardOps hash (BatchOp.putOp k v) = [] := by rw [guardOps, hsel]
        rw [List.flatMap_cons, hnil]
        have hlen : seq0 + 1 + ops.length =
            seq0 + (BatchOp.putOp k v :: ops).length := by
          simp only [List.length_cons]
          omega
        rw [hlen]
        simp
    | delOp k =>
      have hdel : dispatchRec (fenceInserter hash)
          (⟨nb, seq0, g, true⟩ : FenceInserterState) (opRec (BatchOp.delOp k)) =
          ⟨nb, seq0 + 1, g, true⟩ := rfl
      rw [hstep, hdel]
      obtain ⟨g2, hg2⟩ := ih hnft nb (seq0 + 1) g
      refine ⟨g2, ?_⟩
      rw [hg2, List.flatMap_cons]
      have hnil : guardOps hash (BatchOp.delOp k) = [] := rfl
      rw [hnil]
      have hlen : seq0 + 1 + ops.length =
          seq0 + (BatchOp.delOp k :: ops).length := by
        simp only [List.length_cons]
        omega
      rw [hlen]
      simp
    | fenceOp k l =>
      exact absurd (hnf _ (List.mem_cons_self _ _)) (by simp [noFenceOp])

/-- C4: over a batch holding a single Put of a key, the guard selector either
finds no level (and emits nothing), or finds a first level L (scanning from
level 0 with bit threshold 27 decreasing by 2 per level) and emits exactly
one Fence record for the key at L and at every deeper level, none shallower:
the output batch is exactly the fences for levels L..kNumLevels-1 and the
per-level guard counters are 1 on [L, kNumLevels) and 0 elsewhere. -/
theorem c4_guard_monotonic (hash : List Nat → Nat) (k v : List Nat)
    (hk : k.length < 4294967296) (hv : v.length < 4294967296) :
    (setFences hash (applyOps WriteBatch.clearBatch [BatchOp.putOp k v])
      WriteBatch.clearBatch).2 = none ∧
    (setFences hash (applyOps WriteBatch.clearBatch [BatchOp.putOp k v])
      WriteBatch.clearBatch).1.newBatch =
      applyOps WriteBatch.clearBatch
        (match selectFenceLevel (hash k) with
         | some L => (List.range' L (kNumLevels - L)).map
             (fun j => BatchOp.fenceOp k j)
         | none => []) ∧
    (∀ j, (setFences hash (applyOps WriteBatch.clearBatch [BatchOp.putOp k v])
      WriteBatch.clearBatch).1.numGuards j =
      match selectFenceLevel (hash k) with
      | some L => if L ≤ j ∧ j < kNumLevels then 1 else 0
      | none => 0) := by
  have hops : ∀ op ∈ [BatchOp.putOp k v], wfOp op := by
    intro op hop
    simp at hop
    subst hop
    exact ⟨hk, hv⟩
  rw [setFences, clearBatch_eq_nf,
    iterate_nf (fenceInserter hash) _ 0 [BatchOp.putOp k v] hops (by simp)]
  have hstep : foldOps (fenceInserter hash)
      (⟨nfBatch 0 0 [], (applyOps (nfBatch 0 0 []) [BatchOp.putOp k v]).sequence,
        fun _ => 0, true⟩ : FenceInserterState) [BatchOp.putOp k v] =
      match selectFenceLevel (hash k) with
      | some i => ⟨(List.range' i (kNumLevels - i)).foldl
          (fun b j => b.putFence k j) (nfBatch 0 0 []),
          (applyOps (nfBatch 0 0 []) [BatchOp.putOp k v]).sequence + 1,
          fun j => if i ≤ j ∧ j < kNumLevels then (0 : Nat) + 1 else 0, true⟩
      | none => ⟨nfBatch 0 0 [],
          (applyOps (nfBatch 0 0 []) [BatchOp.putOp k v]).sequence + 1,
          fun _ => 0, true⟩ := rfl
  rw [hstep]
  cases hsel : selectFenceLevel (hash k) with
  | some L =>
    simp only [hsel]
    refine ⟨by trivial, ?_, ?_⟩
    · rw [foldl_putFence]
    · intro j
      by_cases hj : L ≤ j ∧ j < kNumLevels
      · simp [hj]
      · simp [hj]
  | none =>
    simp only [hsel]
    exact ⟨by trivial, by trivial, fun j => by trivial⟩

theorem c4_guard_monotonic_witness :
    (([21] : List Nat).length < 4294967296 ∧ ([22] : List Nat).length < 4294967296) ∧
    ((setFences (fun _ => 134217727) (applyOps WriteBatch.clearBatch
        [BatchOp.putOp [21] [22]]) WriteBatch.clearBatch).2 = none ∧
    (setFences (fun _ => 134217727) (applyOps WriteBatch.clearBatch
        [BatchOp.putOp [21] [22]]) WriteBatch.clearBatch).1.newBatch =
      applyOps WriteBatch.clearBatch
        (match selectFenceLevel ((fun _ => 134217727) ([21] : List Nat)) with
         | some L => (List.range' L (kNumLevels - L)).map
             (fun j => BatchOp.fenceOp [21] j)
         | none => []) ∧
    (∀ j, (setFences (fun _ => 134217727) (applyOps WriteBatch.clearBatch
        [BatchOp.putOp [21] [22]]) WriteBatch.clearBatch).1.numGuards j =
      match selectFenceLevel ((fun _ => 134217727) ([21] : List Nat)) with
      | some L => if L ≤ j ∧ j < kNumLevels then 1 else 0
      | none => 0)) :=
  ⟨⟨by decide, by decide⟩,
   c4_guard_monotonic (fun _ => 134217727) [21] [22] (by decide) (by decide)⟩

/-- C5: the guard selector is deterministic and per-key: over any batch of
Put/Delete calls, the emitted fence batch is the in-order concatenation of
guardOps of each Put, where guardOps depends only on the fixed-seed hash of
the key bytes — so any two invocations over batches containing the same key
agree on that key's fence levels, regardless of the other records, their
order, or the put value. -/
theorem c5_guard_deterministic (hash : List Nat → Nat) (seq : Nat)
    (ops : List BatchOp) (hwf : ∀ op ∈ ops, wfOp op)
    (hnf2 : ∀ op ∈ ops, noFenceOp op) (hn : ops.length < 4294967296) :
    (∃ gcounts,
      setFences hash (applyOps (WriteBatch.clearBatch.setSequence seq) ops)
        WriteBatch.clearBatch =
      (⟨applyOps WriteBatch.clearBatch (ops.flatMap (guardOps hash)),
        (applyOps (WriteBatch.clearBatch.setSequence seq) ops).sequence + ops.length,
        gcounts, true⟩, none)) ∧
    (∀ k2 v1 v2, guardOps hash (BatchOp.putOp k2 v1) =
      guardOps hash (BatchOp.putOp k2 v2)) := by
  constructor
  · rw [setFences, clearBatch_eq_nf, nfBatch_setSequence,
      iterate_nf (fenceInserter hash) _ seq ops hwf hn]
    obtain ⟨g2, hg2⟩ := fenceFold hash ops hnf2 (nfBatch 0 0 [])
      ((applyOps ((nfBatch 0 0 []).setSequence seq) ops).sequence) (fun _ => 0)
    rw [nfBatch_setSequence] at hg2
    exact ⟨g2, by rw [hg2]⟩
  · intro k2 v1 v2
    rfl

theorem c5_guard_deterministic_witness :
    ((∀ op ∈ [BatchOp.putOp [31] [32], BatchOp.delOp [33]], wfOp op) ∧
     (∀ op ∈ [BatchOp.putOp [31] [32], BatchOp.delOp [33]], noFenceOp op) ∧
     [BatchOp.putOp [31] [32], BatchOp.delOp [33]].length < 4294967296) ∧
    ((∃ gcounts,
      setFences (fun _ => 134217727)
          (applyOps (WriteBatch.clearBatch.setSequence 6)
            [BatchOp.putOp [31] [32], BatchOp.delOp [33]]) WriteBatch.clearBatch =
      (⟨applyOps WriteBatch.clearBatch
          ([BatchOp.putOp [31] [32], BatchOp.delOp [33]].flatMap
            (guardOps (fun _ => 134217727))),
        (applyOps (WriteBatch.clearBatch.setSequence 6)
          [BatchOp.putOp [31] [32], BatchOp.delOp [33]]).sequence +
          [BatchOp.putOp [31] [32], BatchOp.delOp [33]].length,
        gcounts, true⟩, none)) ∧
    (∀ k2 v1 v2, guardOps (fun _ => 134217727) (BatchOp.putOp k2 v1) =
      guardOps (fun _ => 134217727) (BatchOp.putOp k2 v2))) :=
  ⟨⟨by decide, by decide, by decide⟩,
   c5_guard_deterministic (fun _ => 134217727) 6 _ (by decide) (by decide) (by decide)⟩

/-!
VersionEdit (src/db/version_edit.h and src/db/version_edit.cc).
-/

/-- Modelled from the spec: the opaque ordered key type (InternalKey of
dbformat.h, a collaborator outside the verified sources) supporting byte
Encode (its rep) and DecodeFrom (reconstructing the key from the bytes). -/
structure InternalKey where
  rep : List Nat
deriving DecidableEq

/-- FileMetaData of version_edit.h. The fence back-pointer (raw memory) is
omitted; refs and allowed_seeks carry the constructor defaults (0 and 1<<30)
everywhere the claims reach, and number (uninitialized in the C++
constructor) is modelled as 0 until assigned. -/
structure FileMetaData where
  refs : Nat
  allowed_seeks : Nat
  number : Nat
  file_size : Nat
  smallest : InternalKey
  largest : InternalKey
deriving DecidableEq

/-- FenceMetaData of version_edit.h (file_metas, raw pointers, omitted). The
constructor's level sentinel -1 is modelled as 0; every path the claims
exercise overwrites it before use. -/
structure FenceMetaData where
  refs : Nat
  level : Nat
  number_segments : Nat
  fence_key : InternalKey
  smallest : InternalKey
  largest : InternalKey
  files : List Nat
deriving DecidableEq

/-- The ordered std::set of (level, file number) pairs under the default
pair ordering: a strictly sorted duplicate-free insertion. -/
def insertPair (x : Nat × Nat) : List (Nat × Nat) → List (Nat × Nat)
  | [] => [x]
  | y :: ys =>
    if x.1 < y.1 ∨ (x.1 = y.1 ∧ x.2 < y.2) then x :: y :: ys
    else if x = y then y :: ys
    else y :: insertPair x ys

theorem mem_insertPair (a x : Nat × Nat) (l : List (Nat × Nat)) :
    a ∈ insertPair x l ↔ a = x ∨ a ∈ l := by
  induction l with
  | nil => simp [insertPair]
  | cons y ys ih =>
    rw [insertPair]
    split
    · simp
    · split
      next hxy =>
        subst hxy
        simp
      · simp [ih]
        tauto

/-- Append an element to one slot of a per-level array. -/
def pushAt {α : Type} (f : Nat → List α) (l : Nat) (x : α) : Nat → List α :=
  fun j => if j = l then f j ++ [x] else f j

/-- The VersionEdit diff. deleted_files and deleted_sentinel_files are
std::set fields over integer pairs (default ordering, modelled as sorted
insertion); deleted_fences is a std::set ordered by the injected comparator
(a collaborator outside the sources), modelled from the spec as the sequence
of insertions with set membership semantics. -/
structure VersionEdit where
  comparator : List Nat
  log_number : Nat
  prev_log_number : Nat
  next_file_number : Nat
  last_sequence : Nat
  has_comparator : Bool
  has_log_number : Bool
  has_prev_log_number : Bool
  has_next_file_number : Bool
  has_last_sequence : Bool
  compact_pointers : List (Nat × InternalKey)
  deleted_files : List (Nat × Nat)
  new_files : List (Nat × FileMetaData)
  sentinel_files : Nat → List FileMetaData
  sentinel_file_nos : Nat → List Nat
  deleted_sentinel_files : List (Nat × Nat)
  new_fences : Nat → List FenceMetaData
  new_complete_fences : Nat → List FenceMetaData
  deleted_fences : List (Nat × InternalKey)

/-- A freshly constructed VersionEdit (the constructor runs Clear on
default-initialized members, leaving everything empty). -/
def emptyVersionEdit : VersionEdit where
  comparator := []
  log_number := 0
  prev_log_number := 0
  next_file_number := 0
  last_sequence := 0
  has_comparator := false
  has_log_number := false
  has_prev_log_number := false
  has_next_file_number := false
  has_last_sequence := false
  compact_pointers := []
  deleted_files := []
  new_files := []
  sentinel_files := fun _ => []
  sentinel_file_nos := fun _ => []
  deleted_sentinel_files := []
  new_fences := fun _ => []
  new_complete_fences := fun _ => []
  deleted_fences := []

namespace VersionEdit

/-- VersionEdit::Clear — resets the scalars, presence flags, compaction
pointers, deleted files, new files, and the per-level new-fence and
sentinel-file arrays (levels 0..kNumLevels-1); it does not touch the
deleted-fence set, the complete-fence lists, the sentinel-file-number lists
or the deleted-sentinel-file set. -/
def clear (e : VersionEdit) : VersionEdit where
  comparator := []
  log_number := 0
  prev_log_number := 0
  next_file_number := 0
  last_sequence := 0
  has_comparator := false
  has_log_number := false
  has_prev_log_number := false
  has_next_file_number := false
  has_last_sequence := false
  compact_pointers := []
  deleted_files := []
  new_files := []
  sentinel_files := fun i => if i < kNumLevels then [] else e.sentinel_files i
  sentinel_file_nos := e.sentinel_file_nos
  deleted_sentinel_files := e.deleted_sentinel_files
  new_fences := fun i => if i < kNumLevels then [] else e.new_fences i
  new_complete_fences := e.new_complete_fences
  deleted_fences := e.deleted_fences

def setComparatorName (e : VersionEdit) (name : List Nat) : VersionEdit :=
  { e with has_comparator := true, comparator := name }

def setLogNumber (e : VersionEdit) (num : Nat) : VersionEdit :=
  { e with has_log_number := true, log_number := num }

def setPrevLogNumber (e : VersionEdit) (num : Nat) : VersionEdit :=
  { e with has_prev_log_number := true, prev_log_number := num }

def setNextFile (e : VersionEdit) (num : Nat) : VersionEdit :=
  { e with has_next_file_number := true, next_file_number := num }

def setLastSequence (e : VersionEdit) (seq : Nat) : VersionEdit :=
  { e with has_last_sequence := true, last_sequence := seq }

def setCompactPointer (e : VersionEdit) (level : Nat) (key : InternalKey) :
    VersionEdit :=
  { e with compact_pointers := e.compact_pointers ++ [(level, key)] }

def addFile (e : VersionEdit) (level file file_size : Nat)
    (smallest largest : InternalKey) : VersionEdit :=
  { e with new_files :=
      e.new_files ++ [(level, ⟨0, 1073741824, file, file_size, smallest, largest⟩)] }

def addFileToSentinel (e : VersionEdit) (f : FileMetaData) (level : Nat) :
    VersionEdit :=
  { e with sentinel_files := pushAt e.sentinel_files level f }

def addSentinelFile (e : VersionEdit) (level allowed_seeks file_size : Nat)
    (largest smallest : InternalKey) (number refs : Nat) : VersionEdit :=
  { e with sentinel_files :=
      pushAt e.sentinel_files level ⟨refs, allowed_seeks, number, file_size, smallest, largest⟩ }

def addSentinelFileNo (e : VersionEdit) (level no : Nat) : VersionEdit :=
  { e with sentinel_file_nos := pushAt e.sentinel_file_nos level no }

def addFence (e : VersionEdit) (level : Nat) (fence_key : InternalKey) :
    VersionEdit :=
  { e with new_fences :=
      pushAt e.new_fences level ⟨0, level, 0, fence_key, ⟨[]⟩, ⟨[]⟩, []⟩ }

def addCompleteFence (e : VersionEdit) (level : Nat) (fence_key : InternalKey) :
    VersionEdit :=
  { e with new_complete_fences :=
      pushAt e.new_complete_fences level ⟨0, level, 0, fence_key, ⟨[]⟩, ⟨[]⟩, []⟩ }

def removeFile (e : VersionEdit) (level file : Nat) : VersionEdit :=
  { e with deleted_files := insertPair (level, file) e.deleted_files }

def deleteFence (e : VersionEdit) (level : Nat) (fence : InternalKey) :
    VersionEdit :=
  { e with deleted_fences := e.deleted_fences ++ [(level, fence)] }

def deleteSentinelFile (e : VersionEdit) (level file : Nat) : VersionEdit :=
  { e with deleted_sentinel_files :=
      insertPair (level, file) e.deleted_sentinel_files }

end VersionEdit

/-! Tag numbers for serialized VersionEdit (the Tag enum). -/

def kComparator : Nat := 1

def kLogNumber : Nat := 2

def kNextFileNumber : Nat := 3

def kLastSequence : Nat := 4

def kCompactPointer : Nat := 5

def kDeletedFile : Nat := 6

def kNewFile : Nat := 7

def kPrevLogNumber : Nat := 9

def kNewFence : Nat := 10

def kDeletedFence : Nat := 11

def kFileInsideFence : Nat := 12

def kNewSentinelFile : Nat := 13

def kDeletedSentinelFile : Nat := 14

def kNewCompleteFence : Nat := 15

def kNewSentinelFileNo : Nat := 16

/-- VersionEdit::EncodeTo, section by section in source order. Note the
fence sections write a literal 0 where the segment count would go, and no
section at all serializes sentinel_files or sentinel_file_nos. -/
def encodeTo (e : VersionEdit) : List Nat :=
  (if e.has_comparator then putVarint32 kComparator ++ lengthPrefixed e.comparator
   else []) ++
  (if e.has_log_number then putVarint32 kLogNumber ++ putVarint64 e.log_number
   else []) ++
  (if e.has_prev_log_number then
    putVarint32 kPrevLogNumber ++ putVarint64 e.prev_log_number
   else []) ++
  (if e.has_next_file_number then
    putVarint32 kNextFileNumber ++ putVarint64 e.next_file_number
   else []) ++
  (if e.has_last_sequence then
    putVarint32 kLastSequence ++ putVarint64 e.last_sequence
   else []) ++
  (e.compact_pointers.map (fun p =>
    putVarint32 kCompactPointer ++ putVarint32 p.1 ++
      lengthPrefixed p.2.rep)).flatten ++
  (e.deleted_files.map (fun p =>
    putVarint32 kDeletedFile ++ putVarint32 p.1 ++ putVarint64 p.2)).flatten ++
  (e.new_files.map (fun p =>
    putVarint32 kNewFile ++ putVarint32 p.1 ++ putVarint64 p.2.number ++
      putVarint64 p.2.file_size ++ lengthPrefixed p.2.smallest.rep ++
      lengthPrefixed p.2.largest.rep)).flatten ++
  (e.deleted_fences.map (fun p =>
    putVarint32 kDeletedFence ++ putVarint32 p.1 ++
      lengthPrefixed p.2.rep)).flatten ++
  ((List.range kNumLevels).map (fun k =>
    ((e.new_fences k).map (fun f =>
      putVarint32 kNewFence ++ putVarint32 f.level ++ putVarint64 0 ++
        lengthPrefixed f.fence_key.rep)).flatten)).flatten ++
  ((List.range kNumLevels).map (fun k =>
    ((e.new_complete_fences k).map (fun f =>
      putVarint32 kNewCompleteFence ++ putVarint32 f.level ++ putVarint64 0 ++
        lengthPrefixed f.fence_key.rep)).flatten)).flatten ++
  (e.deleted_sentinel_files.map (fun p =>
    putVarint32 kDeletedSentinelFile ++ putVarint32 p.1 ++
      putVarint64 p.2)).flatten

/-- GetLevel of version_edit.cc: a varint32 that must be below the level
count. -/
def getLevel (input : List Nat) : Option (Nat × List Nat) :=
  match getVarint input with
  | some (v, r) => if v < kNumLevels then some (v, r) else none
  | none => none

/-- GetInternalKey of version_edit.cc: a length-prefixed slice handed to
InternalKey::DecodeFrom (the key type is a collaborator; its decode is
modelled from the spec as rebuilding the key from the bytes). -/
def getInternalKey (input : List Nat) : Option (InternalKey × List Nat) :=
  match getLengthPrefixed input with
  | some (s, r) => some (⟨s⟩, r)
  | none => none

/-- The file-gathering loop of the kNewFence decode arm: n entries, each a
kFileInsideFence tag then a varint file number. The source reads these under
assert(...); a failed read or wrong tag (a fatal assert in the source) is
modelled as a decode failure. -/
def readFenceFiles : Nat → List Nat → Option (List Nat × List Nat)
  | 0, input => some ([], input)
  | n + 1, input =>
    match getVarint input with
    | some (t2, r) =>
      if t2 = kFileInsideFence then
        match getVarint r with
        | some (fn, r2) =>
          match readFenceFiles n r2 with
          | some (fs, r3) => some (fn :: fs, r3)
          | none => none
        | none => none
      else none
    | none => none

/-- Level then internal key (compaction-pointer and deleted-fence arms). -/
def readLevelKey (input : List Nat) : Option ((Nat × InternalKey) × List Nat) :=
  match getLevel input with
  | some (l, r1) =>
    match getInternalKey r1 with
    | some (k, r2) => some ((l, k), r2)
    | none => none
  | none => none

/-- Level then varint64 (deleted-file, deleted-sentinel-file and
new-sentinel-file arms). -/
def readLevelNum (input : List Nat) : Option ((Nat × Nat) × List Nat) :=
  match getLevel input with
  | some (l, r1) =>
    match getVarint r1 with
    | some (n, r2) => some ((l, n), r2)
    | none => none
  | none => none

/-- Level, file number, file size, smallest and largest keys (the kNewFile
and kNewSentinelFileNo arms); refs/allowed_seeks keep the in-scope
FileMetaData defaults. -/
def readNewFile (input : List Nat) : Option ((Nat × FileMetaData) × List Nat) :=
  match getLevel input with
  | some (l, r1) =>
    match getVarint r1 with
    | some (num, r2) =>
      match getVarint r2 with
      | some (fsz, r3) =>
        match getInternalKey r3 with
        | some (sm, r4) =>
          match getInternalKey r4 with
          | some (lg, r5) => some ((l, ⟨0, 1073741824, num, fsz, sm, lg⟩), r5)
          | none => none
        | none => none
      | none => none
    | none => none
  | none => none

/-- The kNewFence arm: level, segment count, fence key; with a nonzero
count, also the smallest/largest pair and count-many nested file entries.
gsl threads the decode-local FenceMetaData's smallest/largest, which persist
across records in the source. Returns the fence, the updated gsl, and the
rest. -/
def readFence (gsl : InternalKey × InternalKey) (input : List Nat) :
    Option (FenceMetaData × (InternalKey × InternalKey) × List Nat) :=
  match getLevel input with
  | some (l, r1) =>
    match getVarint r1 with
    | some (nseg, r2) =>
      match getInternalKey r2 with
      | some (fkey, r3) =>
        if nseg > 0 then
          match getInternalKey r3 with
          | some (sm, r4) =>
            match getInternalKey r4 with
            | some (lg, r5) =>
              match readFenceFiles nseg r5 with
              | some (fs, r6) => some (⟨0, l, nseg, fkey, sm, lg, fs⟩, (sm, lg), r6)
              | none => none
            | none => none
          | none => none
        else some (⟨0, l, nseg, fkey, gsl.1, gsl.2, []⟩, gsl, r3)
      | none => none
    | none => none
  | none => none

/-- The kNewCompleteFence arm: as readFence but never reading nested file
entries; with a nonzero count it still consumes the smallest/largest pair.
The file list is cleared. -/
def readCompleteFence (gsl : InternalKey × InternalKey) (input : List Nat) :
    Option (FenceMetaData × (InternalKey × InternalKey) × List Nat) :=
  match getLevel input with
  | some (l, r1) =>
    match getVarint r1 with
    | some (nseg, r2) =>
      match getInternalKey r2 with
      | some (fkey, r3) =>
        if nseg > 0 then
          match getInternalKey r3 with
          | some (sm, r4) =>
            match getInternalKey r4 with
            | some (lg, r5) => some (⟨0, l, nseg, fkey, sm, lg, []⟩, (sm, lg), r5)
            | none => none
          | none => none
        else some (⟨0, l, nseg, fkey, gsl.1, gsl.2, []⟩, gsl, r3)
      | none => none
    | none => none
  | none => none

/-- One arm of the DecodeFrom tag switch: the updated edit, the updated
fence smallest/largest temporaries, the error message if the arm failed, and
the remaining input. -/
def decodeCase (tag : Nat) (input : List Nat) (e : VersionEdit)
    (gsl : InternalKey × InternalKey) :
    VersionEdit × (InternalKey × InternalKey) × Option String × List Nat :=
  if tag = kComparator then
    match getLengthPrefixed input with
    | some (s, r) =>
      ({ e with comparator := s, has_comparator := true }, gsl, none, r)
    | none => (e, gsl, some "comparator name", input)
  else if tag = kLogNumber then
    match getVarint input with
    | some (n, r) =>
      ({ e with log_number := n, has_log_number := true }, gsl, none, r)
    | none => (e, gsl, some "log number", input)
  else if tag = kPrevLogNumber then
    match getVarint input with
    | some (n, r) =>
      ({ e with prev_log_number := n, has_prev_log_number := true }, gsl, none, r)
    | none => (e, gsl, some "previous log number", input)
  else if tag = kNextFileNumber then
    match getVarint input with
    | some (n, r) =>
      ({ e with next_file_number := n, has_next_file_number := true }, gsl, none, r)
    | none => (e, gsl, some "next file number", input)
  else if tag = kLastSequence then
    match getVarint input with
    | some (n, r) =>
      ({ e with last_sequence := n, has_last_sequence := true }, gsl, none, r)
    | none => (e, gsl, some "last sequence number", input)
  else if tag = kCompactPointer then
    match readLevelKey input with
    | some ((l, k), r) =>
      ({ e with compact_pointers := e.compact_pointers ++ [(l, k)] }, gsl, none, r)
    | none => (e, gsl, some "compaction pointer", input)
  else if tag = kDeletedFile then
    match readLevelNum input with
    | some ((l, n), r) =>
      ({ e with deleted_files := insertPair (l, n) e.deleted_files }, gsl, none, r)
    | none => (e, gsl, some "deleted file", input)
  else if tag = kDeletedFence then
    match readLevelKey input with
    | some ((l, k), r) =>
      ({ e with deleted_fences := e.deleted_fences ++ [(l, k)] }, gsl, none, r)
    | none => (e, gsl, some "deleted guard", input)
  else if tag = kDeletedSentinelFile then
    match readLevelNum input with
    | some ((l, n), r) =>
      ({ e with
          deleted_sentinel_files := insertPair (l, n) e.deleted_sentinel_files },
        gsl, none, r)
    | none => (e, gsl, some "deleted sentinel file", input)
  else if tag = kNewFile then
    match readNewFile input with
    | some ((l, f), r) =>
      ({ e with new_files := e.new_files ++ [(l, f)] }, gsl, none, r)
    | none => (e, gsl, some "new-file entry", input)
  else if tag = kNewSentinelFile then
    match readLevelNum input with
    | some ((l, n), r) =>
      ({ e with sentinel_file_nos := pushAt e.sentinel_file_nos l n }, gsl, none, r)
    | none => (e, gsl, some "new-sentinel-file entry", input)
  else if tag = kNewSentinelFileNo then
    match readNewFile input with
    | some ((l, f), r) =>
      ({ e with new_files := e.new_files ++ [(l, f)] }, gsl, none, r)
    | none => (e, gsl, some "new-sentinel-file entry", input)
  else if tag = kNewFence then
    match readFence gsl input with
    | some (f, gsl2, r) =>
      ({ e with new_fences := pushAt e.new_fences f.level f }, gsl2, none, r)
    | none => (e, gsl, some "new-fence entry", input)
  else if tag = kNewCompleteFence then
    match readCompleteFence gsl input with
    | some (f, gsl2, r) =>
      ({ e with
          new_complete_fences := pushAt e.new_complete_fences f.level f },
        gsl2, none, r)
    | none => (e, gsl, some "new-complete-fence entry", input)
  else (e, gsl, some "unknown tag", input)

theorem getLevel_length {input r : List Nat} {l : Nat}
    (h : getLevel input = some (l, r)) : r.length < input.length := by
  unfold getLevel at h
  cases hv : getVarint input with
  | none => simp [hv] at h
  | some p =>
    obtain ⟨v, r0⟩ := p
    simp only [hv] at h
    split at h
    · cases h
      exact getVarint_length hv
    · cases h

theorem getInternalKey_length {input r : List Nat} {k : InternalKey}
    (h : getInternalKey input = some (k, r)) : r.length < input.length := by
  unfold getInternalKey at h
  cases hv : getLengthPrefixed input with
  | none => simp [hv] at h
  | some p =>
    obtain ⟨s, r0⟩ := p
    simp only [hv] at h
    cases h
    exact getLengthPrefixed_length hv

theorem readFenceFiles_length {n : Nat} {input fs r : List Nat}
    (h : readFenceFiles n input = some (fs, r)) : r.length ≤ input.length := by
  induction n generalizing input fs r with
  | zero =>
    unfold readFenceFiles at h
    cases h
    exact le_refl _
  | succ n ih =>
    unfold readFenceFiles at h
    cases h1 : getVarint input with
    | none => simp [h1] at h
    | some p1 =>
      obtain ⟨t2, r1⟩ := p1
      simp only [h1] at h
      split at h
      · cases h2 : getVarint r1 with
        | none => simp [h2] at h
        | some p2 =>
          obtain ⟨fn, r2⟩ := p2
          simp only [h2] at h
          cases h3 : readFenceFiles n r2 with
          | none => simp [h3] at h
          | some p3 =>
            obtain ⟨fs3, r3⟩ := p3
            simp only [h3] at h
            cases h
            have hv1 := getVarint_length h1
            have hv2 := getVarint_length h2
            have hv3 := ih h3
            omega
      · cases h

theorem readLevelKey_length {input r : List Nat} {p : Nat × InternalKey}
    (h : readLevelKey input = some (p, r)) : r.length < input.length := by
  unfold readLevelKey at h
  cases h1 : getLevel input with
  | none => simp [h1] at h
  | some p1 =>
    obtain ⟨l, r1⟩ := p1
    simp only [h1] at h
    cases h2 : getInternalKey r1 with
    | none => simp [h2] at h
    | some p2 =>
      obtain ⟨k, r2⟩ := p2
      simp only [h2] at h
      cases h
      have := getLevel_length h1
      have := getInternalKey_length h2
      omega

theorem readLevelNum_length {input r : List Nat} {p : Nat × Nat}
    (h : readLevelNum input = some (p, r)) : r.length < input.length := by
  unfold readLevelNum at h
  cases h1 : getLevel input with
  | none => simp [h1] at h
  | some p1 =>
    obtain ⟨l, r1⟩ := p1
    simp only [h1] at h
    cases h2 : getVarint r1 with
    | none => simp [h2] at h
    | some p2 =>
      obtain ⟨n, r2⟩ := p2
      simp only [h2] at h
      cases h
      have := getLevel_length h1
      have := getVarint_length h2
      omega

theorem readNewFile_length {input r : List Nat} {p : Nat × FileMetaData}
    (h : readNewFile input = some (p, r)) : r.length < input.length := by
  unfold readNewFile at h
  cases h1 : getLevel input with
  | none => simp [h1] at h
  | some p1 =>
    obtain ⟨l, r1⟩ := p1
    simp only [h1] at h
    cases h2 : getVarint r1 with
    | none => simp [h2] at h
    | some p2 =>
      obtain ⟨num, r2⟩ := p2
      simp only [h2] at h
      cases h3 : getVarint r2 with
      | none => simp [h3] at h
      | some p3 =>
        obtain ⟨fsz, r3⟩ := p3
        simp only [h3] at h
        cases h4 : getInternalKey r3 with
        | none => simp [h4] at h
        | some p4 =>
          obtain ⟨sm, r4⟩ := p4
          simp only [h4] at h
          cases h5 : getInternalKey r4 with
          | none => simp [h5] at h
          | some p5 =>
            obtain ⟨lg, r5⟩ := p5
            simp only [h5] at h
            cases h
            have := getLevel_length h1
            have := getVarint_length h2
            have := getVarint_length h3
            have := getInternalKey_length h4
            have := getInternalKey_length h5
            omega

theorem readFence_length {gsl gsl2 : InternalKey × InternalKey}
    {input r : List Nat} {f : FenceMetaData}
    (h : readFence gsl input = some (f, gsl2, r)) : r.length < input.length := by
  unfold readFence at h
  cases h1 : getLevel input with
  | none => simp [h1] at h
  | some p1 =>
    obtain ⟨l, r1⟩ := p1
    simp only [h1] at h
    cases h2 : getVarint r1 with
    | none => simp [h2] at h
    | some p2 =>
      obtain ⟨nseg, r2⟩ := p2
      simp only [h2] at h
      cases h3 : getInternalKey r2 with
      | none => simp [h3] at h
      | some p3 =>
        obtain ⟨fkey, r3⟩ := p3
        simp only [h3] at h
        have hl1 := getLevel_length h1
        have hl2 := getVarint_length h2
        have hl3 := getInternalKey_length h3
        split at h
        · cases h4 : getInternalKey r3 with
          | none => simp [h4] at h
          | some p4 =>
            obtain ⟨sm, r4⟩ := p4
            simp only [h4] at h
            cases h5 : getInternalKey r4 with
            | none => simp [h5] at h
            | some p5 =>
              obtain ⟨lg, r5⟩ := p5
              simp only [h5] at h
              cases h6 : readFenceFiles nseg r5 with
              | none => simp [h6] at h
              | some p6 =>
                obtain ⟨fs, r6⟩ := p6
                simp only [h6] at h
                cases h
                have := getInternalKey_length h4
                have := getInternalKey_length h5
                have := readFenceFiles_length h6
                omega
        · cases h
          omega

theorem readCompleteFence_length {gsl gsl2 : InternalKey × InternalKey}
    {input r : List Nat} {f : FenceMetaData}
    (h : readCompleteFence gsl input = some (f, gsl2, r)) :
    r.length < input.length := by
  unfold readCompleteFence at h
  cases h1 : getLevel input with
  | none => simp [h1] at h
  | some p1 =>
    obtain ⟨l, r1⟩ := p1
    simp only [h1] at h
    cases h2 : getVarint r1 with
    | none => simp [h2] at h
    | some p2 =>
      obtain ⟨nseg, r2⟩ := p2
      simp only [h2] at h
      cases h3 : getInternalKey r2 with
      | none => simp [h3] at h
      | some p3 =>
        obtain ⟨fkey, r3⟩ := p3
        simp only [h3] at h
        have hl1 := getLevel_length h1
        have hl2 := getVarint_length h2
        have hl3 := getInternalKey_length h3
        split at h
        · cases h4 : getInternalKey r3 with
          | none => simp [h4] at h
          | some p4 =>
            obtain ⟨sm, r4⟩ := p4
            simp only [h4] at h
            cases h5 : getInternalKey r4 with
            | none => simp [h5] at h
            | some p5 =>
              obtain ⟨lg, r5⟩ := p5
              simp only [h5] at h
              cases h
              have := getInternalKey_length h4
              have := getInternalKey_length h5
              omega
        · cases h
          omega

theorem decodeCase_length {tag : Nat} {input rest2 : List Nat}
    {e e2 : VersionEdit} {gsl gsl2 : InternalKey × InternalKey}
    (h : decodeCase tag input e gsl = (e2, gsl2, none, rest2)) :
    rest2.length ≤ input.length := by
  unfold decodeCase at h
  by_cases t1 : tag = kComparator
  · rw [if_pos t1] at h
    cases hp : getLengthPrefixed input with
      | none => simp [hp] at h
      | some p =>
        obtain ⟨s, r⟩ := p
        simp only [hp] at h
        cases h
        exact le_of_lt (getLengthPrefixed_length hp)
  rw [if_neg t1] at h
  by_cases t2 : tag = kLogNumber
  · rw [if_pos t2] at h
    cases hp : getVarint input with
      | none => simp [hp] at h
      | some p =>
        obtain ⟨n, r⟩ := p
        simp only [hp] at h
        cases h
        exact le_of_lt (getVarint_length hp)
  rw [if_neg t2] at h
  by_cases t3 : tag = kPrevLogNumber
  · rw [if_pos t3] at h
    cases hp : getVarint input with
      | none => simp [hp] at h
      | some p =>
        obtain ⟨n, r⟩ := p
        simp only [hp] at h
        cases h
        exact le_of_lt (getVarint_length hp)
  rw [if_neg t3] at h
  by_cases t4 : tag = kNextFileNumber
  · rw [if_pos t4] at h
    cases hp : getVarint input with
      | none => simp [hp] at h
      | some p =>
        obtain ⟨n, r⟩ := p
        simp only [hp] at h
        cases h
        exact le_of_lt (getVarint_length hp)
  rw [if_neg t4] at h
  by_cases t5 : tag = kLastSequence
  · rw [if_pos t5] at h
    cases hp : getVarint input with
      | none => simp [hp] at h
      | some p =>
        obtain ⟨n, r⟩ := p
        simp only [hp] at h
        cases h
        exact le_of_lt (getVarint_length hp)
  rw [if_neg t5] at h
  by_cases t6 : tag = kCompactPointer
  · rw [if_pos t6] at h
    cases hp : readLevelKey input with
      | none => simp [hp] at h
      | some p =>
        obtain ⟨⟨l, k⟩, r⟩ := p
        simp only [hp] at h
        cases h
        exact le_of_lt (readLevelKey_length hp)
  rw [if_neg t6] at h
  by_cases t7 : tag = kDeletedFile
  · rw [if_pos t7] at h
    cases hp : readLevelNum input with
      | none => simp [hp] at h
      | some p =>
        obtain ⟨⟨l, n⟩, r⟩ := p
        simp only [hp] at h
        cases h
        exact le_of_lt (readLevelNum_length hp)
  rw [if_neg t7] at h
  by_cases t8 : tag = kDeletedFence
  · rw [if_pos t8] at h
    cases hp : readLevelKey input with
      | none => simp [hp] at h
      | some p =>
        obtain ⟨⟨l, k⟩, r⟩ := p
        simp only [hp] at h
        cases h
        exact le_of_lt (readLevelKey_length hp)
  rw [if_neg t8] at h
  by_cases t9 : tag = kDeletedSentinelFile
  · rw [if_pos t9] at h
    cases hp : readLevelNum input with
      | none => simp [hp] at h
      | some p =>
        obtain ⟨⟨l, n⟩, r⟩ := p
        simp only [hp] at h
        cases h
        exact le_of_lt (readLevelNum_length hp)
  rw [if_neg t9] at h
  by_cases t10 : tag = kNewFile
  · rw [if_pos t10] at h
    cases hp : readNewFile input with
      | none => simp [hp] at h
      | some p =>
        obtain ⟨⟨l, f⟩, r⟩ := p
        simp only [hp] at h
        cases h
        exact le_of_lt (readNewFile_length hp)
  rw [if_neg t10] at h
  by_cases t11 : tag = kNewSentinelFile
  · rw [if_pos t11] at h
    cases hp : readLevelNum input with
      | none => simp [hp] at h
      | some p =>
        obtain ⟨⟨l, n⟩, r⟩ := p
        simp only [hp] at h
        cases h
        exact le_of_lt (readLevelNum_length hp)
  rw [if_neg t11] at h
  by_cases t12 : tag = kNewSentinelFileNo
  · rw [if_pos t12] at h
    cases hp : readNewFile input with
      | none => simp [hp] at h
      | some p =>
        obtain ⟨⟨l, f⟩, r⟩ := p
        simp only [hp] at h
        cases h
        exact le_of_lt (readNewFile_length hp)
  rw [if_neg t12] at h
  by_cases t13 : tag = kNewFence
  · rw [if_pos t13] at h
    cases hp : readFence gsl input with
      | none => simp [hp] at h
      | some p =>
        obtain ⟨f, g2, r⟩ := p
        simp only [hp] at h
        cases h
        exact le_of_lt (readFence_length hp)
  rw [if_neg t13] at h
  by_cases t14 : tag = kNewCompleteFence
  · rw [if_pos t14] at h
    cases hp : readCompleteFence gsl input with
      | none => simp [hp] at h
      | some p =>
        obtain ⟨f, g2, r⟩ := p
        simp only [hp] at h
        cases h
        exact le_of_lt (readCompleteFence_length hp)
  rw [if_neg t14] at h
  cases h

/-- The tag loop of VersionEdit::DecodeFrom: read tags left to right until
the input is exhausted (success) or a tag fails to parse; leftover bytes
after a failed tag read are the "invalid tag" error. -/
def decodeLoop (input : List Nat) (e : VersionEdit)
    (gsl : InternalKey × InternalKey) : VersionEdit × Option String :=
  match hv : getVarint input with
  | none => if input = [] then (e, none) else (e, some "invalid tag")
  | some (tag, rest) =>
    match hc : decodeCase tag rest e gsl with
    | (e3, gsl3, none, rest2) => decodeLoop rest2 e3 gsl3
    | (e3, _, some msg, _) => (e3, some msg)
termination_by input.length
decreasing_by
  have h1 := getVarint_length hv
  have h2 := decodeCase_length hc
  omega

/-- VersionEdit::DecodeFrom — Clear this edit, then run the tag loop with
the decode-local FenceMetaData temporaries (smallest/largest) starting at
their defaults. A some result is Status::Corruption("VersionEdit", msg). -/
def decodeFrom (e : VersionEdit) (src : List Nat) : VersionEdit × Option String :=
  decodeLoop src e.clear (⟨[]⟩, ⟨[]⟩)

theorem getVarint_putVarint64 (n : Nat) (rest : List Nat)
    (h : n < 18446744073709551616) :
    getVarint (putVarint64 n ++ rest) = some (n, rest) := by
  rw [putVarint64, Nat.mod_eq_of_lt h, getVarint_putVarint]

theorem getVarint_putVarint32 (n : Nat) (rest : List Nat) (h : n < 4294967296) :
    getVarint (putVarint32 n ++ rest) = some (n, rest) := by
  rw [putVarint32, Nat.mod_eq_of_lt h, getVarint_putVarint]

theorem getLevel_enc (l : Nat) (rest : List Nat) (h : l < kNumLevels) :
    getLevel (putVarint32 l ++ rest) = some (l, rest) := by
  unfold getLevel
  rw [getVarint_putVarint32 l rest (by unfold kNumLevels at h; omega)]
  simp [h]

theorem getInternalKey_enc (k : InternalKey) (rest : List Nat)
    (h : k.rep.length < 4294967296) :
    getInternalKey (lengthPrefixed k.rep ++ rest) = some (k, rest) := by
  unfold getInternalKey
  rw [getLengthPrefixed_lengthPrefixed k.rep rest h]

theorem readLevelKey_enc (l : Nat) (k : InternalKey) (rest : List Nat)
    (hl : l < kNumLevels) (hk : k.rep.length < 4294967296) :
    readLevelKey (putVarint32 l ++ (lengthPrefixed k.rep ++ rest)) =
      some ((l, k), rest) := by
  unfold readLevelKey
  simp only [getLevel_enc l _ hl, getInternalKey_enc k rest hk]

theorem readLevelNum_enc (l n : Nat) (rest : List Nat)
    (hl : l < kNumLevels) (hn : n < 18446744073709551616) :
    readLevelNum (putVarint32 l ++ (putVarint64 n ++ rest)) =
      some ((l, n), rest) := by
  unfold readLevelNum
  simp only [getLevel_enc l _ hl, getVarint_putVarint64 n rest hn]

/-- The FileMetaData the decoder rebuilds from a new-file record: the wire
fields of f with the in-scope temporary's default refs/allowed_seeks. -/
def decodedFile (f : FileMetaData) : FileMetaData :=
  ⟨0, 1073741824, f.number, f.file_size, f.smallest, f.largest⟩

theorem readNewFile_enc (l : Nat) (f : FileMetaData) (rest : List Nat)
    (hl : l < kNumLevels) (hn : f.number < 18446744073709551616)
    (hs : f.file_size < 18446744073709551616)
    (hsm : f.smallest.rep.length < 4294967296)
    (hlg : f.largest.rep.length < 4294967296) :
    readNewFile (putVarint32 l ++ (putVarint64 f.number ++ (putVarint64 f.file_size ++
      (lengthPrefixed f.smallest.rep ++ (lengthPrefixed f.largest.rep ++ rest))))) =
      some ((l, decodedFile f), rest) := by
  unfold readNewFile
  simp only [getLevel_enc l _ hl, getVarint_putVarint64 f.number _ hn,
    getVarint_putVarint64 f.file_size _ hs, getInternalKey_enc f.smallest _ hsm,
    getInternalKey_enc f.largest rest hlg]
  rfl

/-- The fence the decoder rebuilds from a zero-count fence record: fence key
and level from the wire, segment count zero, smallest/largest from the
decode-local temporaries, empty file list. -/
def decodedFence (gsl : InternalKey × InternalKey) (level : Nat)
    (fence_key : InternalKey) : FenceMetaData :=
  ⟨0, level, 0, fence_key, gsl.1, gsl.2, []⟩

theorem readFence_enc (gsl : InternalKey × InternalKey) (l : Nat)
    (fkey : InternalKey) (rest : List Nat) (hl : l < kNumLevels)
    (hk : fkey.rep.length < 4294967296) :
    readFence gsl (putVarint32 l ++ (putVarint64 0 ++
      (lengthPrefixed fkey.rep ++ rest))) =
      some (decodedFence gsl l fkey, gsl, rest) := by
  unfold readFence
  simp only [getLevel_enc l _ hl, getVarint_putVarint64 0 _ (by omega),
    getInternalKey_enc fkey rest hk]
  rfl

theorem readCompleteFence_enc (gsl : InternalKey × InternalKey) (l : Nat)
    (fkey : InternalKey) (rest : List Nat) (hl : l < kNumLevels)
    (hk : fkey.rep.length < 4294967296) :
    readCompleteFence gsl (putVarint32 l ++ (putVarint64 0 ++
      (lengthPrefixed fkey.rep ++ rest))) =
      some (decodedFence gsl l fkey, gsl, rest) := by
  unfold readCompleteFence
  simp only [getLevel_enc l _ hl, getVarint_putVarint64 0 _ (by omega),
    getInternalKey_enc fkey rest hk]
  rfl

/-- One serialized VersionEdit record, as EncodeTo emits them. -/
inductive ERec where
  | comparator (s : List Nat)
  | logNumber (n : Nat)
  | prevLogNumber (n : Nat)
  | nextFileNumber (n : Nat)
  | lastSequence (n : Nat)
  | compactPointer (l : Nat) (k : InternalKey)
  | deletedFile (l n : Nat)
  | newFile (l : Nat) (f : FileMetaData)
  | deletedFence (l : Nat) (k : InternalKey)
  | newFence (f : FenceMetaData)
  | newCompleteFence (f : FenceMetaData)
  | deletedSentinelFile (l n : Nat)
deriving DecidableEq

/-- The bytes EncodeTo writes for one record. -/
def encRec : ERec → List Nat
  | .comparator s => putVarint32 kComparator ++ lengthPrefixed s
  | .logNumber n => putVarint32 kLogNumber ++ putVarint64 n
  | .prevLogNumber n => putVarint32 kPrevLogNumber ++ putVarint64 n
  | .nextFileNumber n => putVarint32 kNextFileNumber ++ putVarint64 n
  | .lastSequence n => putVarint32 kLastSequence ++ putVarint64 n
  | .compactPointer l k =>
    putVarint32 kCompactPointer ++ putVarint32 l ++ lengthPrefixed k.rep
  | .deletedFile l n =>
    putVarint32 kDeletedFile ++ putVarint32 l ++ putVarint64 n
  | .newFile l f =>
    putVarint32 kNewFile ++ putVarint32 l ++ putVarint64 f.number ++
      putVarint64 f.file_size ++ lengthPrefixed f.smallest.rep ++
      lengthPrefixed f.largest.rep
  | .deletedFence l k =>
    putVarint32 kDeletedFence ++ putVarint32 l ++ lengthPrefixed k.rep
  | .newFence f =>
    putVarint32 kNewFence ++ putVarint32 f.level ++ putVarint64 0 ++
      lengthPrefixed f.fence_key.rep
  | .newCompleteFence f =>
    putVarint32 kNewCompleteFence ++ putVarint32 f.level ++ putVarint64 0 ++
      lengthPrefixed f.fence_key.rep
  | .deletedSentinelFile l n =>
    putVarint32 kDeletedSentinelFile ++ putVarint32 l ++ putVarint64 n

/-- The state change the decoder applies for one record of EncodeTo's
output, with gsl the decode-local fence smallest/largest temporaries. -/
def applyRec (gsl : InternalKey × InternalKey) (e : VersionEdit) :
    ERec → VersionEdit
  | .comparator s => { e with comparator := s, has_comparator := true }
  | .logNumber n => { e with log_number := n, has_log_number := true }
  | .prevLogNumber n => { e with prev_log_number := n, has_prev_log_number := true }
  | .nextFileNumber n => { e with next_file_number := n, has_next_file_number := true }
  | .lastSequence n => { e with last_sequence := n, has_last_sequence := true }
  | .compactPointer l k =>
    { e with compact_pointers := e.compact_pointers ++ [(l, k)] }
  | .deletedFile l n =>
    { e with deleted_files := insertPair (l, n) e.deleted_files }
  | .newFile l f => { e with new_files := e.new_files ++ [(l, decodedFile f)] }
  | .deletedFence l k =>
    { e with deleted_fences := e.deleted_fences ++ [(l, k)] }
  | .newFence f =>
    { e with new_fences :=
        pushAt e.new_fences f.level (decodedFence gsl f.level f.fence_key) }
  | .newCompleteFence f =>
    { e with new_complete_fences :=
        pushAt e.new_complete_fences f.level (decodedFence gsl f.level f.fence_key) }
  | .deletedSentinelFile l n =>
    { e with deleted_sentinel_files := insertPair (l, n) e.deleted_sentinel_files }

/-- Payload well-formedness of a record: levels in range, byte strings and
integers within the varint32/varint64 framing. -/
def wfRec : ERec → Prop
  | .comparator s => s.length < 4294967296
  | .logNumber n => n < 18446744073709551616
  | .prevLogNumber n => n < 18446744073709551616
  | .nextFileNumber n => n < 18446744073709551616
  | .lastSequence n => n < 18446744073709551616
  | .compactPointer l k => l < kNumLevels ∧ k.rep.length < 4294967296
  | .deletedFile l n => l < kNumLevels ∧ n < 18446744073709551616
  | .newFile l f => l < kNumLevels ∧ f.number < 18446744073709551616 ∧
      f.file_size < 18446744073709551616 ∧
      f.smallest.rep.length < 4294967296 ∧ f.largest.rep.length < 4294967296
  | .deletedFence l k => l < kNumLevels ∧ k.rep.length < 4294967296
  | .newFence f => f.level < kNumLevels ∧ f.fence_key.rep.length < 4294967296
  | .newCompleteFence f => f.level < kNumLevels ∧ f.fence_key.rep.length < 4294967296
  | .deletedSentinelFile l n => l < kNumLevels ∧ n < 18446744073709551616

theorem decodeLoop_unfold (input : List Nat) (e : VersionEdit)
    (gsl : InternalKey × InternalKey) :
    decodeLoop input e gsl =
      match getVarint input with
      | none => if input = [] then (e, none) else (e, some "invalid tag")
      | some (tag, rest) =>
        match decodeCase tag rest e gsl with
        | (e3, gsl3, none, rest2) => decodeLoop rest2 e3 gsl3
        | (e3, _, some msg, _) => (e3, some msg) := by
  rw [decodeLoop]
  split
  next hv => simp [hv]
  next tag rest hv =>
    simp only [hv]
    split
    next e3 gsl3 rest2 hc => simp [hc]
    next e3 a msg b hc => simp [hc]

theorem decodeCase_eq_comparator (input : List Nat) (e : VersionEdit)
    (gsl : InternalKey × InternalKey) :
    decodeCase kComparator input e gsl =
      match getLengthPrefixed input with
      | some (s, r) =>
        ({ e with comparator := s, has_comparator := true }, gsl, none, r)
      | none => (e, gsl, some "comparator name", input) := rfl

theorem decodeCase_eq_logNumber (input : List Nat) (e : VersionEdit)
    (gsl : InternalKey × InternalKey) :
    decodeCase kLogNumber input e gsl =
      match getVarint input with
      | some (n, r) =>
        ({ e with log_number := n, has_log_number := true }, gsl, none, r)
      | none => (e, gsl, some "log number", input) := rfl

theorem decodeCase_eq_prevLogNumber (input : List Nat) (e : VersionEdit)
    (gsl : InternalKey × InternalKey) :
    decodeCase kPrevLogNumber input e gsl =
      match getVarint input with
      | some (n, r) =>
        ({ e with prev_log_number := n, has_prev_log_number := true }, gsl, none, r)
      | none => (e, gsl, some "previous log number", input) := rfl

theorem decodeCase_eq_nextFileNumber (input : List Nat) (e : VersionEdit)
    (gsl : InternalKey × InternalKey) :
    decodeCase kNextFileNumber input e gsl =
      match getVarint input with
      | some (n, r) =>
        ({ e with next_file_number := n, has_next_file_number := true }, gsl, none, r)
      | none => (e, gsl, some "next file number", input) := rfl

theorem decodeCase_eq_lastSequence (input : List Nat) (e : VersionEdit)
    (gsl : InternalKey × InternalKey) :
    decodeCase kLastSequence input e gsl =
      match getVarint input with
      | some (n, r) =>
        ({ e with last_sequence := n, has_last_sequence := true }, gsl, none, r)
      | none => (e, gsl, some "last sequence number", input) := rfl

theorem decodeCase_eq_compactPointer (input : List Nat) (e : VersionEdit)
    (gsl : InternalKey × InternalKey) :
    decodeCase kCompactPointer input e gsl =
      match readLevelKey input with
      | some ((l, k), r) =>
        ({ e with compact_pointers := e.compact_pointers ++ [(l, k)] }, gsl, none, r)
      | none => (e, gsl, some "compaction pointer", input) := rfl

theorem decodeCase_eq_deletedFile (input : List Nat) (e : VersionEdit)
    (gsl : InternalKey × InternalKey) :
    decodeCase kDeletedFile input e gsl =
      match readLevelNum input with
      | some ((l, n), r) =>
        ({ e with deleted_files := insertPair (l, n) e.deleted_files }, gsl, none, r)
      | none => (e, gsl, some "deleted file", input) := rfl

theorem decodeCase_eq_deletedFence (input : List Nat) (e : VersionEdit)
    (gsl : InternalKey × InternalKey) :
    decodeCase kDeletedFence input e gsl =
      match readLevelKey input with
      | some ((l, k), r) =>
        ({ e with deleted_fences := e.deleted_fences ++ [(l, k)] }, gsl, none, r)
      | none => (e, gsl, some "deleted guard", input) := rfl

theorem decodeCase_eq_deletedSentinelFile (input : List Nat) (e : VersionEdit)
    (gsl : InternalKey × InternalKey) :
    decodeCase kDeletedSentinelFile input e gsl =
      match readLevelNum input with
      | some ((l, n), r) =>
        ({ e with
            deleted_sentinel_files := insertPair (l, n) e.deleted_sentinel_files },
          gsl, none, r)
      | none => (e, gsl, some "deleted sentinel file", input) := rfl

theorem decodeCase_eq_newFile (input : List Nat) (e : VersionEdit)
    (gsl : InternalKey × InternalKey) :
    decodeCase kNewFile input e gsl =
      match readNewFile input with
      | some ((l, f), r) =>
        ({ e with new_files := e.new_files ++ [(l, f)] }, gsl, none, r)
      | none => (e, gsl, some "new-file entry", input) := rfl

theorem decodeCase_eq_newSentinelFile (input : List Nat) (e : VersionEdit)
    (gsl : InternalKey × InternalKey) :
    decodeCase kNewSentinelFile input e gsl =
      match readLevelNum input with
      | some ((l, n), r) =>
        ({ e with sentinel_file_nos := pushAt e.sentinel_file_nos l n }, gsl, none, r)
      | none => (e, gsl, some "new-sentinel-file entry", input) := rfl

theorem decodeCase_eq_newSentinelFileNo (input : List Nat) (e : VersionEdit)
    (gsl : InternalKey × InternalKey) :
    decodeCase kNewSentinelFileNo input e gsl =
      match readNewFile input with
      | some ((l, f), r) =>
        ({ e with new_files := e.new_files ++ [(l, f)] }, gsl, none, r)
      | none => (e, gsl, some "new-sentinel-file entry", input) := rfl

theorem decodeCase_eq_newFence (input : List Nat) (e : VersionEdit)
    (gsl : InternalKey × InternalKey) :
    decodeCase kNewFence input e gsl =
      match readFence gsl input with
      | some (f, gsl2, r) =>
        ({ e with new_fences := pushAt e.new_fences f.level f }, gsl2, none, r)
      | none => (e, gsl, some "new-fence entry", input) := rfl

theorem decodeCase_eq_newCompleteFence (input : List Nat) (e : VersionEdit)
    (gsl : InternalKey × InternalKey) :
    decodeCase kNewCompleteFence input e gsl =
      match readCompleteFence gsl input with
      | some (f, gsl2, r) =>
        ({ e with
            new_complete_fences := pushAt e.new_complete_fences f.level f },
          gsl2, none, r)
      | none => (e, gsl, some "new-complete-fence entry", input) := rfl

/-- Decoding one record of EncodeTo's output consumes exactly its bytes and
applies its state change; the fence smallest/largest temporaries are
unchanged because EncodeTo writes a zero segment count. -/
theorem decodeLoop_step (r : ERec) (hwf : wfRec r) (rest : List Nat)
    (e : VersionEdit) (gsl : InternalKey × InternalKey) :
    decodeLoop (encRec r ++ rest) e gsl =
      decodeLoop rest (applyRec gsl e r) gsl := by
  cases r with
  | comparator s =>
    have henc : encRec (ERec.comparator s) ++ rest =
        putVarint32 kComparator ++ (lengthPrefixed s ++ rest) := by
      simp [encRec]
    rw [henc, decodeLoop_unfold]
    simp only [getVarint_putVarint32 kComparator _ (by decide),
      decodeCase_eq_comparator,
      getLengthPrefixed_lengthPrefixed s rest hwf]
    rfl
  | logNumber n =>
    have henc : encRec (ERec.logNumber n) ++ rest =
        putVarint32 kLogNumber ++ (putVarint64 n ++ rest) := by
      simp [encRec]
    rw [henc, decodeLoop_unfold]
    simp only [getVarint_putVarint32 kLogNumber _ (by decide),
      decodeCase_eq_logNumber, getVarint_putVarint64 n rest hwf]
    rfl
  | prevLogNumber n =>
    have henc : encRec (ERec.prevLogNumber n) ++ rest =
        putVarint32 kPrevLogNumber ++ (putVarint64 n ++ rest) := by
      simp [encRec]
    rw [henc, decodeLoop_unfold]
    simp only [getVarint_putVarint32 kPrevLogNumber _ (by decide),
      decodeCase_eq_prevLogNumber, getVarint_putVarint64 n rest hwf]
    rfl
  | nextFileNumber n =>
    have henc : encRec (ERec.nextFileNumber n) ++ rest =
        putVarint32 kNextFileNumber ++ (putVarint64 n ++ rest) := by
      simp [encRec]
    rw [henc, decodeLoop_unfold]
    simp only [getVarint_putVarint32 kNextFileNumber _ (by decide),
      decodeCase_eq_nextFileNumber, getVarint_putVarint64 n rest hwf]
    rfl
  | lastSequence n =>
    have henc : encRec (ERec.lastSequence n) ++ rest =
        putVarint32 kLastSequence ++ (putVarint64 n ++ rest) := by
      simp [encRec]
    rw [henc, decodeLoop_unfold]
    simp only [getVarint_putVarint32 kLastSequence _ (by decide),
      decodeCase_eq_lastSequence, getVarint_putVarint64 n rest hwf]
    rfl
  | compactPointer l k =>
    have henc : encRec (ERec.compactPointer l k) ++ rest =
        putVarint32 kCompactPointer ++
          (putVarint32 l ++ (lengthPrefixed k.rep ++ rest)) := by
      simp [encRec]
    rw [henc, decodeLoop_unfold]
    simp only [getVarint_putVarint32 kCompactPointer _ (by decide),
      decodeCase_eq_compactPointer, readLevelKey_enc l k rest hwf.1 hwf.2]
    rfl
  | deletedFile l n =>
    have henc : encRec (ERec.deletedFile l n) ++ rest =
        putVarint32 kDeletedFile ++ (putVarint32 l ++ (putVarint64 n ++ rest)) := by
      simp [encRec]
    rw [henc, decodeLoop_unfold]
    simp only [getVarint_putVarint32 kDeletedFile _ (by decide),
      decodeCase_eq_deletedFile, readLevelNum_enc l n rest hwf.1 hwf.2]
    rfl
  | newFile l f =>
    obtain ⟨h1, h2, h3, h4, h5⟩ := hwf
    have henc : encRec (ERec.newFile l f) ++ rest =
        putVarint32 kNewFile ++ (putVarint32 l ++ (putVarint64 f.number ++
          (putVarint64 f.file_size ++ (lengthPrefixed f.smallest.rep ++
            (lengthPrefixed f.largest.rep ++ rest))))) := by
      simp [encRec]
    rw [henc, decodeLoop_unfold]
    simp only [getVarint_putVarint32 kNewFile _ (by decide),
      decodeCase_eq_newFile, readNewFile_enc l f rest h1 h2 h3 h4 h5]
    rfl
  | deletedFence l k =>
    have henc : encRec (ERec.deletedFence l k) ++ rest =
        putVarint32 kDeletedFence ++
          (putVarint32 l ++ (lengthPrefixed k.rep ++ rest)) := by
      simp [encRec]
    rw [henc, decodeLoop_unfold]
    simp only [getVarint_putVarint32 kDeletedFence _ (by decide),
      decodeCase_eq_deletedFence, readLevelKey_enc l k rest hwf.1 hwf.2]
    rfl
  | newFence f =>
    have henc : encRec (ERec.newFence f) ++ rest =
        putVarint32 kNewFence ++ (putVarint32 f.level ++
          (putVarint64 0 ++ (lengthPrefixed f.fence_key.rep ++ rest))) := by
      simp [encRec]
    rw [henc, decodeLoop_unfold]
    simp only [getVarint_putVarint32 kNewFence _ (by decide),
      decodeCase_eq_newFence, readFence_enc gsl f.level f.fence_key rest hwf.1 hwf.2]
    rfl
  | newCompleteFence f =>
    have henc : encRec (ERec.newCompleteFence f) ++ rest =
        putVarint32 kNewCompleteFence ++ (putVarint32 f.level ++
          (putVarint64 0 ++ (lengthPrefixed f.fence_key.rep ++ rest))) := by
      simp [encRec]
    rw [henc, decodeLoop_unfold]
    simp only [getVarint_putVarint32 kNewCompleteFence _ (by decide),
      decodeCase_eq_newCompleteFence,
      readCompleteFence_enc gsl f.level f.fence_key rest hwf.1 hwf.2]
    rfl
  | deletedSentinelFile l n =>
    have henc : encRec (ERec.deletedSentinelFile l n) ++ rest =
        putVarint32 kDeletedSentinelFile ++
          (putVarint32 l ++ (putVarint64 n ++ rest)) := by
      simp [encRec]
    rw [henc, decodeLoop_unfold]
    simp only [getVarint_putVarint32 kDeletedSentinelFile _ (by decide),
      decodeCase_eq_deletedSentinelFile, readLevelNum_enc l n rest hwf.1 hwf.2]
    rfl

/-- Decoding a concatenation of EncodeTo records folds their state changes
in order and succeeds. -/
theorem decodeLoop_recs (rs : List ERec) (hwf : ∀ r ∈ rs, wfRec r)
    (e : VersionEdit) (gsl : InternalKey × InternalKey) :
    decodeLoop ((rs.map encRec).flatten) e gsl =
      (rs.foldl (applyRec gsl) e, none) := by
  induction rs generalizing e with
  | nil => rw [decodeLoop_unfold]; rfl
  | cons r rs ih =>
    have henc : ((r :: rs).map encRec).flatten =
        encRec r ++ (rs.map encRec).flatten := by simp
    rw [henc, decodeLoop_step r (hwf r (List.mem_cons_self r rs)) _ e gsl,
      ih (fun x hx => hwf x (List.mem_cons_of_mem r hx))]
    rfl

end Leveldb
